import Mathlib

/-!
The authentication middleware of messageProcessor.

A shallow embedding of `middleware/auth.go` and of the parts of the Go standard
library and of `github.com/golang-jwt/jwt/v4` that it drives, followed by the
properties of the gates that the specification states.

Conventions of the embedding:

* a Go `string` that holds text is a `GoString`, a list of characters; the two methods
  that encode a string of their caller as JSON are also given on arbitrary bytes, in
  the namespace `raw`;
* an `http.ResponseWriter` is a record that is threaded through the calls, an
  `http.Handler` is a function on the state of one HTTP exchange;
* `time.Now()` and the cryptographic and wire primitives of the token library
  are arguments of the functions that use them.
-/

namespace MessageProcessor

/-- A Go string that holds text, as the sequence of its characters. -/
abbrev GoString := List Char

/-! ## Package `strings` -/

namespace strings

/-- The function `strings.HasPrefix`:
`len(s) >= len(pre) && s[:len(pre)] == pre`. -/
def HasPrefix (s pre : GoString) : Bool :=
  decide (pre.length ≤ s.length) && (s.take pre.length == pre)

/-- The function `strings.Index`: the position of the first occurrence of `sep` in `s`. -/
def Index : GoString → GoString → Option Nat
  | [], sep => if sep = [] then some 0 else none
  | c :: t, sep =>
    if sep.isPrefixOf (c :: t) then some 0 else (Index t sep).map (· + 1)

/-- The loop of `strings.genSplit`: cut at most `n` times at the first occurrence of `sep`. -/
def splitLoop : Nat → GoString → GoString → List GoString
  | 0, s, _ => [s]
  | n + 1, s, sep =>
    match Index s sep with
    | none => [s]
    | some m => s.take m :: splitLoop n (s.drop (m + sep.length)) sep

/-- The function `strings.SplitN` for a non-empty separator (both call sites pass a
one-character literal): `n = 0` gives no piece, `n < 0` every piece, and `n > 0` at most
`n` pieces, the last one being the unsplit rest. -/
def SplitN (s sep : GoString) (n : Int) : List GoString :=
  if n = 0 then []
  else if n < 0 then splitLoop s.length s sep
  else splitLoop (min n.toNat (s.length + 1) - 1) s sep

/-- The function `strings.Split`, which is `SplitN` with `n = -1`. -/
def Split (s sep : GoString) : List GoString := SplitN s sep (-1)

end strings

/-! ## Package `net/http` -/

/-- Bytes that may appear in a header field name (`textproto.validHeaderFieldByte`). -/
def validHeaderFieldByte (c : Char) : Bool :=
  c.isAlphanum || "!#$%&*+-.^_|~".toList.contains c || c == Char.ofNat 39 || c == Char.ofNat 96

/-- The canonicalisation loop: upper case at the start and after each dash, lower case
elsewhere. -/
def canonLoop : Bool → GoString → GoString
  | _, [] => []
  | upper, c :: t =>
    let c1 := if upper && c.isLower then c.toUpper
              else if !upper && c.isUpper then c.toLower else c
    c1 :: canonLoop (c1 == '-') t

/-- The function `textproto.CanonicalMIMEHeaderKey`: a key holding a space or a byte
that is not a field-name byte is returned unchanged. -/
def CanonicalMIMEHeaderKey (s : GoString) : GoString :=
  if s.all validHeaderFieldByte then canonLoop true s else s

/-- The type `http.Header`: canonical field name to values. -/
structure Header where
  entries : List (GoString × List GoString)
  deriving DecidableEq, Repr

namespace Header

/-- The method `Header.Get`: the first value of the canonicalised key, or `""`. -/
def Get (h : Header) (key : GoString) : GoString :=
  match h.entries.lookup (CanonicalMIMEHeaderKey key) with
  | some (v :: _) => v
  | _ => []

/-- The method `Header.Set`: the canonicalised key is bound to the single value. -/
def Set (h : Header) (key value : GoString) : Header :=
  let k := CanonicalMIMEHeaderKey key
  ⟨(k, [value]) :: h.entries.filter (fun e => e.1 != k)⟩

end Header

/-- The type `url.Values`, the parsed query of the request URL. -/
structure Values where
  entries : List (GoString × List GoString)
  deriving DecidableEq, Repr

/-- The method `Values.Get`: the first value of the key, or `""`. -/
def Values.Get (v : Values) (key : GoString) : GoString :=
  match v.entries.lookup key with
  | some (x :: _) => x
  | _ => []

/-- A value stored in a request context. -/
inductive CtxValue where
  | int (n : Int)
  | str (s : GoString)
  deriving DecidableEq, Repr

/-- The parts of `http.Request` that the middleware and the router read: method, path
(`r.URL.Path`), header, parsed query (`r.URL.Query()`) and the values of the request
context. -/
structure Request where
  Method : GoString
  Path : GoString
  Header : Header
  Query : Values
  ctx : List (GoString × CtxValue)
  deriving DecidableEq, Repr

namespace Request

/-- The method `Request.Context`. -/
def Context (r : Request) : List (GoString × CtxValue) := r.ctx

/-- The method `Request.WithContext`: a copy of the request with its context replaced. -/
def WithContext (r : Request) (ctx : List (GoString × CtxValue)) : Request :=
  { r with ctx := ctx }

end Request

/-- A call made on the response writer. -/
inductive Event where
  | setHeader (key value : GoString)
  | writeHeader (code : Nat)
  | write (data : GoString)
  deriving DecidableEq, Repr

/-- An `http.ResponseWriter` with the behaviour of the server's writer and of
`httptest.ResponseRecorder`: the first `WriteHeader` fixes the status line and the header
fields that are sent, and later calls of `WriteHeader` change nothing. `faults` scripts the
coming calls of `Write`: `none` (or an exhausted script) lets the call through, `some n`
makes it fail after `n` bytes. -/
structure ResponseWriter where
  header : Header
  wroteHeader : Bool
  status : Nat
  sentHeader : Header
  body : GoString
  faults : List (Option Nat)
  log : List Event
  deriving DecidableEq, Repr

namespace ResponseWriter

/-- A writer on which nothing has been called yet. -/
def fresh (faults : List (Option Nat)) : ResponseWriter :=
  { header := ⟨[]⟩, wroteHeader := false, status := 0, sentHeader := ⟨[]⟩, body := [],
    faults := faults, log := [] }

/-- The call `w.Header().Set(key, value)`. -/
def SetHeader (w : ResponseWriter) (key value : GoString) : ResponseWriter :=
  { w with header := w.header.Set key value, log := w.log ++ [Event.setHeader key value] }

/-- Send the status line and the header fields, unless they have been sent. -/
def commit (w : ResponseWriter) (code : Nat) : ResponseWriter :=
  if w.wroteHeader then w
  else { w with wroteHeader := true, status := code, sentHeader := w.header }

/-- The method `WriteHeader`. -/
def WriteHeader (w : ResponseWriter) (code : Nat) : ResponseWriter :=
  let w1 := w.commit code
  { w1 with log := w1.log ++ [Event.writeHeader code] }

/-- The method `Write`: an implicit `WriteHeader(200)` if no status was sent, then the
bytes the connection accepts; the flag tells whether the call returned an error. -/
def Write (w : ResponseWriter) (data : GoString) : ResponseWriter × Bool :=
  let w1 := w.commit 200
  let w2 := { w1 with log := w1.log ++ [Event.write data] }
  match w2.faults with
  | [] => ({ w2 with body := w2.body ++ data }, false)
  | none :: rest => ({ w2 with body := w2.body ++ data, faults := rest }, false)
  | some n :: rest => ({ w2 with body := w2.body ++ data.take n, faults := rest }, true)

/-- Whether the coming call of `Write` is scripted to fail. -/
def nextWriteFails (w : ResponseWriter) : Bool :=
  match w.faults with
  | some _ :: _ => true
  | _ => false

end ResponseWriter

/-! ## Package `encoding/json`: the encoder -/

namespace json

/-- A hexadecimal digit, lower case. -/
def hexDigit (n : Nat) : Char :=
  if n < 10 then Char.ofNat (48 + n) else Char.ofNat (87 + n)

/-- The escape of one character inside a string literal, as `json.Encoder` writes it with
its default HTML escaping. -/
def escapeChar (c : Char) : GoString :=
  if c = '"' then ['\\', '"']
  else if c = '\\' then ['\\', '\\']
  else if c = Char.ofNat 8 then ['\\', 'b']
  else if c = Char.ofNat 12 then ['\\', 'f']
  else if c = Char.ofNat 10 then ['\\', 'n']
  else if c = Char.ofNat 13 then ['\\', 'r']
  else if c = Char.ofNat 9 then ['\\', 't']
  else if c.toNat < 32 ∨ c = '<' ∨ c = '>' ∨ c = '&' then
    ['\\', 'u', '0', '0', hexDigit (c.toNat / 16), hexDigit (c.toNat % 16)]
  else if c = Char.ofNat 8232 ∨ c = Char.ofNat 8233 then
    ['\\', 'u', '2', '0', '2', hexDigit (c.toNat % 16)]
  else [c]

/-- A string as a JSON string literal. -/
def quote (s : GoString) : GoString :=
  '"' :: (s.flatMap escapeChar ++ ['"'])

/-- The members of an object, comma separated. -/
def marshalMembers : List (GoString × GoString) → GoString
  | [] => []
  | [(k, v)] => quote k ++ ':' :: quote v
  | (k, v) :: rest => quote k ++ ':' :: quote v ++ ',' :: marshalMembers rest

/-- The function `json.Marshal` on a `map[string]string`, given as its key-sorted list of
entries. It cannot fail. -/
def Marshal (m : List (GoString × GoString)) : GoString :=
  '{' :: (marshalMembers m ++ ['}'])

/-- The call `json.NewEncoder(w).Encode(m)` on a `map[string]string`: the marshalled
value and a newline go to the writer in one `Write`, whose error is returned. -/
def Encode (w : ResponseWriter) (m : List (GoString × GoString)) : ResponseWriter × Bool :=
  w.Write (Marshal m ++ ['\n'])

/-! The reading direction, for JSON objects whose members are strings. It is used to say
what a body written by the encoder (or a literal body) denotes. -/

/-- The value of a hexadecimal digit. -/
def hexVal (c : Char) : Option Nat :=
  if 48 ≤ c.toNat ∧ c.toNat ≤ 57 then some (c.toNat - 48)
  else if 97 ≤ c.toNat ∧ c.toNat ≤ 102 then some (c.toNat - 87)
  else if 65 ≤ c.toNat ∧ c.toNat ≤ 70 then some (c.toNat - 55)
  else none

/-- The character denoted by the escape `\uABCD`; surrogate halves are not read. -/
def unicodeEscape (a b c d : Char) : Option Char :=
  match hexVal a, hexVal b, hexVal c, hexVal d with
  | some x, some y, some z, some t =>
    let n := ((x * 16 + y) * 16 + z) * 16 + t
    if n < 55296 ∨ 57343 < n then some (Char.ofNat n) else none
  | _, _, _, _ => none

/-- The character denoted by a two-character escape. -/
def simpleEscape (e : Char) : Option Char :=
  if e = '"' then some '"'
  else if e = '\\' then some '\\'
  else if e = '/' then some '/'
  else if e = 'b' then some (Char.ofNat 8)
  else if e = 'f' then some (Char.ofNat 12)
  else if e = 'n' then some (Char.ofNat 10)
  else if e = 'r' then some (Char.ofNat 13)
  else if e = 't' then some (Char.ofNat 9)
  else none

/-- Read a string literal whose opening quote has been consumed: the string it denotes and
the input after its closing quote. -/
def readString : GoString → Option (GoString × GoString)
  | [] => none
  | c :: rest =>
    if c = '"' then some ([], rest)
    else if c = '\\' then
      match rest with
      | [] => none
      | e :: rest1 =>
        if e = 'u' then
          match rest1 with
          | a :: b :: c1 :: d :: rest2 =>
            match unicodeEscape a b c1 d, readString rest2 with
            | some ch, some (s, r) => some (ch :: s, r)
            | _, _ => none
          | _ => none
        else
          match simpleEscape e, readString rest1 with
          | some ch, some (s, r) => some (ch :: s, r)
          | _, _ => none
    else if c.toNat < 32 then none
    else
      match readString rest with
      | some (s, r) => some (c :: s, r)
      | none => none

/-- Drop leading JSON white space. -/
def skipWS : GoString → GoString
  | [] => []
  | c :: t => if c = ' ' ∨ c = '\n' ∨ c = '\t' ∨ c = '\r' then skipWS t else c :: t

/-- Read one string literal after white space. -/
def readQuoted (s : GoString) : Option (GoString × GoString) :=
  match skipWS s with
  | c :: t => if c = '"' then readString t else none
  | [] => none

/-- Read the members of an object up to its closing brace: the members and the input that
follows the brace. -/
def readMembers : Nat → GoString → Option (List (GoString × GoString) × GoString)
  | 0, _ => none
  | n + 1, s =>
    match readQuoted s with
    | none => none
    | some (k, s1) =>
      match skipWS s1 with
      | c :: s2 =>
        if c = ':' then
          match readQuoted s2 with
          | none => none
          | some (v, s3) =>
            match skipWS s3 with
            | d :: s4 =>
              if d = '}' then some ([(k, v)], s4)
              else if d = ',' then
                match readMembers n s4 with
                | some (ms, r) => some ((k, v) :: ms, r)
                | none => none
              else none
            | [] => none
        else none
      | [] => none

/-- Read a whole input as one JSON object with string members: its members in order, or
`none` when the input is not such an object. -/
def readObject (s : GoString) : Option (List (GoString × GoString)) :=
  match skipWS s with
  | c :: s1 =>
    if c = '{' then
      match skipWS s1 with
      | d :: s2 =>
        if d = '}' then (if skipWS s2 = [] then some [] else none)
        else
          match readMembers s.length (d :: s2) with
          | some (ms, r) => if skipWS r = [] then some ms else none
          | none => none
      | [] => none
    else none
  | [] => none

end json

/-! ## Package `github.com/golang-jwt/jwt/v4` -/

namespace jwt

/-- An instant, in nanoseconds since the zero instant of the clock. -/
abbrev Time := Nat

/-- The constant `time.Second`, in nanoseconds. -/
def Second : Nat := 1000000000

/-- The constant `time.Hour`, in nanoseconds. -/
def Hour : Nat := 3600 * Second

/-- The function `jwt.NewNumericDate`: the instant truncated to `jwt.TimePrecision`, which
is one second. -/
def NewNumericDate (t : Time) : Time := t / Second * Second

/-- A byte string. -/
abbrev Bytes := List UInt8

/-- The hash functions of the registered signing methods. -/
inductive Hash where
  | SHA256 | SHA384 | SHA512
  deriving DecidableEq, Repr

/-- The signing methods that the library registers, by their Go type: `*SigningMethodHMAC`
(HS256, HS384, HS512), `*SigningMethodRSA`, `*SigningMethodRSAPSS`, `*SigningMethodECDSA`,
`*SigningMethodEd25519` and the unsecured method of `alg: none`. -/
inductive SigningMethod where
  | HMAC (h : Hash)
  | RSA (h : Hash)
  | RSAPSS (h : Hash)
  | ECDSA (h : Hash)
  | Ed25519
  | unsecured
  deriving DecidableEq, Repr

/-- The digits of the name of a hash function. -/
def Hash.bits : Hash → GoString
  | .SHA256 => "256".toList
  | .SHA384 => "384".toList
  | .SHA512 => "512".toList

/-- The method `SigningMethod.Alg`. -/
def SigningMethod.Alg : SigningMethod → GoString
  | .HMAC h => "HS".toList ++ h.bits
  | .RSA h => "RS".toList ++ h.bits
  | .RSAPSS h => "PS".toList ++ h.bits
  | .ECDSA h => "ES".toList ++ h.bits
  | .Ed25519 => "EdDSA".toList
  | .unsecured => "none".toList

/-- Every registered signing method. -/
def signingMethods : List SigningMethod :=
  [.HMAC .SHA256, .HMAC .SHA384, .HMAC .SHA512, .RSA .SHA256, .RSA .SHA384, .RSA .SHA512,
   .RSAPSS .SHA256, .RSAPSS .SHA384, .RSAPSS .SHA512, .ECDSA .SHA256, .ECDSA .SHA384,
   .ECDSA .SHA512, .Ed25519, .unsecured]

/-- The function `jwt.GetSigningMethod`: the registered method of that name, if any. -/
def GetSigningMethod (alg : GoString) : Option SigningMethod :=
  signingMethods.find? (fun sm => sm.Alg == alg)

/-- The struct `jwt.RegisteredClaims`. -/
structure RegisteredClaims where
  Issuer : GoString
  Subject : GoString
  Audience : List GoString
  ExpiresAt : Option Time
  NotBefore : Option Time
  IssuedAt : Option Time
  ID : GoString
  deriving DecidableEq, Repr

/-- The kinds of failure that a `jwt.ValidationError` accumulates in its bit mask. -/
inductive ErrorFlag where
  | Malformed | Unverifiable | SignatureInvalid | Expired | IssuedAt | NotValidYet
  deriving DecidableEq, Repr

/-- The struct `jwt.ValidationError`, as the list of the flags that are set. -/
abbrev ValidationError := List ErrorFlag

/-- The method `RegisteredClaims.Valid` at the instant `now` read from `jwt.TimeFunc`: an
absent claim passes, `exp` requires `now < exp`, `iat` and `nbf` require `now ≥` them.
The result is the flags raised, empty when the claims are valid. -/
def RegisteredClaims.Valid (c : RegisteredClaims) (now : Time) : ValidationError :=
  (match c.ExpiresAt with
    | some exp => if now < exp then [] else [ErrorFlag.Expired]
    | none => []) ++
  (match c.IssuedAt with
    | some iat => if iat ≤ now then [] else [ErrorFlag.IssuedAt]
    | none => []) ++
  (match c.NotBefore with
    | some nbf => if nbf ≤ now then [] else [ErrorFlag.NotValidYet]
    | none => [])

/-- The header of a token, `map[string]interface{}` in Go, as the two entries the library
writes; `alg` is `none` when the entry is absent or is not a string. -/
structure JOSEHeader where
  typ : Option GoString
  alg : Option GoString
  deriving DecidableEq, Repr

end jwt

open jwt in
/-- The struct `JWTClaims` of `middleware/auth.go`. -/
structure JWTClaims where
  UserID : Int
  Username : GoString
  Registered : RegisteredClaims
  deriving DecidableEq, Repr

namespace jwt

/-- The primitives below the token library, which the embedding takes as given: the
unpadded URL-safe base64 of `EncodeSegment` and `DecodeSegment`, the JSON form of the
header and of the claims, and the HMAC of a message under a key. -/
structure Codec where
  EncodeSegment : Bytes → GoString
  DecodeSegment : GoString → Option Bytes
  marshalHeader : JOSEHeader → Bytes
  unmarshalHeader : Bytes → Option JOSEHeader
  marshalClaims : JWTClaims → Bytes
  unmarshalClaims : Bytes → Option JWTClaims
  hmac : Hash → GoString → GoString → Bytes

/-- The struct `jwt.Token`. -/
structure Token where
  Raw : GoString
  Method : Option SigningMethod
  Header : JOSEHeader
  Claims : JWTClaims
  Signature : GoString
  Valid : Bool
  deriving DecidableEq, Repr

/-- The claims a token holds before any segment is decoded. -/
def emptyClaims : JWTClaims :=
  { UserID := 0, Username := [],
    Registered := { Issuer := [], Subject := [], Audience := [], ExpiresAt := none,
                    NotBefore := none, IssuedAt := none, ID := [] } }

/-- The method `Parser.ParseUnverified`: three segments, the header decoded, the claims
decoded, the signing method looked up by the name in `alg`. The token is absent only when
the number of segments is wrong. -/
def ParseUnverified (J : Codec) (tokenString : GoString) :
    Option Token × List GoString × Option ValidationError :=
  let parts := strings.Split tokenString ['.']
  match parts with
  | [p0, p1, _] =>
    let token : Token :=
      { Raw := tokenString, Method := none, Header := ⟨none, none⟩, Claims := emptyClaims,
        Signature := [], Valid := false }
    match (J.DecodeSegment p0).bind J.unmarshalHeader with
    | none => (some token, parts, some [ErrorFlag.Malformed])
    | some hdr =>
      let token := { token with Header := hdr }
      match (J.DecodeSegment p1).bind J.unmarshalClaims with
      | none => (some token, parts, some [ErrorFlag.Malformed])
      | some claims =>
        let token := { token with Claims := claims }
        match hdr.alg with
        | some method =>
          match GetSigningMethod method with
          | some sm => (some { token with Method := some sm }, parts, none)
          | none => (some token, parts, some [ErrorFlag.Unverifiable])
        | none => (some token, parts, some [ErrorFlag.Unverifiable])
  | _ => (none, parts, some [ErrorFlag.Malformed])

/-- The algorithm that the header of a token declares: the string member `alg` of the
decoded first segment of a token of three segments. -/
def declaredAlg (J : Codec) (tokenString : GoString) : Option GoString :=
  match strings.Split tokenString ['.'] with
  | [p0, _, _] => ((J.DecodeSegment p0).bind J.unmarshalHeader).bind (fun hdr => hdr.alg)
  | _ => none

/-- The method `SigningMethod.Verify` with a key of type `[]byte`: an HMAC method decodes
the signature segment and compares it with the MAC of the signing string; every other
method refuses the key (a byte slice is not a public key, nor the constant that allows
unsecured tokens). `true` stands for a `nil` error. -/
def SigningMethod.Verify (J : Codec) (sm : SigningMethod) (signingString signature : GoString)
    (key : GoString) : Bool :=
  match sm with
  | .HMAC h =>
    match J.DecodeSegment signature with
    | some sig => sig == J.hmac h key signingString
    | none => false
  | _ => false

/-- The method `SigningMethod.Sign` with a key of type `[]byte`. -/
def SigningMethod.Sign (J : Codec) (sm : SigningMethod) (signingString : GoString)
    (key : GoString) : Option GoString :=
  match sm with
  | .HMAC h => some (J.EncodeSegment (J.hmac h key signingString))
  | _ => none

/-- The function `jwt.ParseWithClaims` of the default parser, at the instant `now` read
from `jwt.TimeFunc`: parse, ask `keyFunc` for the key, validate the claims, verify the
signature. The error is `nil` exactly when the returned token has `Valid` set. -/
def ParseWithClaims (J : Codec) (now : Time) (tokenString : GoString)
    (keyFunc : Token → Option GoString) : Option Token × Option ValidationError :=
  match ParseUnverified J tokenString with
  | (some token, [p0, p1, p2], none) =>
    match keyFunc token with
    | none => (some token, some [ErrorFlag.Unverifiable])
    | some key =>
      let vErr := token.Claims.Registered.Valid now
      let token := { token with Signature := p2 }
      let vErr :=
        match token.Method with
        | some sm =>
          if sm.Verify J (p0 ++ '.' :: p1) p2 key then vErr
          else vErr ++ [ErrorFlag.SignatureInvalid]
        | none => vErr ++ [ErrorFlag.SignatureInvalid]
      if vErr = [] then (some { token with Valid := true }, none)
      else (some token, some vErr)
  | (token, _, some err) => (token, some err)
  | (token, _, none) => (token, some [ErrorFlag.Malformed])

/-- The function `jwt.NewWithClaims` followed by `Token.SignedString`: the two encoded
segments and the signature of their join, dot separated. -/
def SignedString (J : Codec) (sm : SigningMethod) (claims : JWTClaims) (key : GoString) :
    Option GoString :=
  let header : JOSEHeader := { typ := some "JWT".toList, alg := some sm.Alg }
  let sstr := J.EncodeSegment (J.marshalHeader header) ++
    '.' :: J.EncodeSegment (J.marshalClaims claims)
  match sm.Sign J sstr key with
  | some sig => some (sstr ++ '.' :: sig)
  | none => none

end jwt

/-! ## `middleware/auth.go` -/

/-- The struct `AuthMiddleware`. -/
structure AuthMiddleware where
  jwtSecret : GoString
  apiKeyPrefix : GoString
  deriving DecidableEq, Repr

/-- The constructor `NewAuthMiddleware`. -/
def NewAuthMiddleware (jwtSecret apiKeyPrefix : GoString) : AuthMiddleware :=
  { jwtSecret := jwtSecret, apiKeyPrefix := apiKeyPrefix }

/-- The literal fallback body of the two responders. -/
def encodeFailureBody : GoString := "\x7b\"error\": \"Failed to encode response\"\x7d".toList

/-- The method `UnauthorizedResponse`. -/
def AuthMiddleware.UnauthorizedResponse (_m : AuthMiddleware) (w : ResponseWriter)
    (message : GoString) : ResponseWriter :=
  let w1 := w.SetHeader "Content-Type".toList "application/json".toList
  let w2 := w1.WriteHeader 401
  let response := [("error".toList, message)]
  match json.Encode w2 response with
  | (w3, true) => ((w3.WriteHeader 500).Write encodeFailureBody).1
  | (w3, false) => w3

/-- The method `ErrorResponse`. -/
def AuthMiddleware.ErrorResponse (_m : AuthMiddleware) (w : ResponseWriter) (status : Nat)
    (message : GoString) : ResponseWriter :=
  let w1 := w.SetHeader "Content-Type".toList "application/json".toList
  let w2 := w1.WriteHeader status
  let response := [("error".toList, message)]
  match json.Encode w2 response with
  | (w3, true) => ((w3.WriteHeader 500).Write encodeFailureBody).1
  | (w3, false) => w3

/-- The state of one HTTP exchange: the response writer, and the requests with which the
protected handler has been entered. -/
structure Exchange where
  w : ResponseWriter
  served : List Request
  deriving DecidableEq, Repr

/-- The exchange after a gate has called `m.UnauthorizedResponse(w, message)` and
returned: the writer holds the rejection, and no handler has been entered. -/
def AuthMiddleware.reject (m : AuthMiddleware) (e : Exchange) (message : GoString) :
    Exchange :=
  { e with w := m.UnauthorizedResponse e.w message }

/-- An `http.Handler`: `ServeHTTP(w, r)` as a step on the exchange. -/
abbrev Handler := Exchange → Request → Exchange

/-- A protected handler whose effect on the writer is `inner`, instrumented with an
invocation record that `inner` cannot reach. -/
def observed (inner : ResponseWriter → Request → ResponseWriter) : Handler :=
  fun e r => { w := inner e.w r, served := e.served ++ [r] }

/-- The method `APIKeyAuth`. -/
def AuthMiddleware.APIKeyAuth (m : AuthMiddleware) (next : Handler) : Handler :=
  fun e r =>
    let apiKey := r.Header.Get "X-API-Key".toList
    if apiKey = [] then
      let apiKey := r.Query.Get "api_key".toList
      if apiKey = [] then
        m.reject e "API key required".toList
      else if !strings.HasPrefix apiKey m.apiKeyPrefix then
        m.reject e "Invalid API key format".toList
      else next e r
    else if !strings.HasPrefix apiKey m.apiKeyPrefix then
      m.reject e "Invalid API key format".toList
    else next e r

/-- The key function that `JWTAuth` passes to the parser: the secret for a method of type
`*jwt.SigningMethodHMAC`, an error for every other method. -/
def AuthMiddleware.keyFunc (m : AuthMiddleware) (token : jwt.Token) : Option GoString :=
  match token.Method with
  | some (.HMAC _) => some m.jwtSecret
  | _ => none

/-- The method `JWTAuth`; `now` is what `time.Now()` returns when the library validates
the claims. -/
def AuthMiddleware.JWTAuth (m : AuthMiddleware) (J : jwt.Codec) (now : jwt.Time)
    (next : Handler) : Handler :=
  fun e r =>
    let authHeader := r.Header.Get "Authorization".toList
    if authHeader = [] then
      m.reject e "Authorization header required".toList
    else
      match strings.SplitN authHeader [' '] 2 with
      | [scheme, tokenString] =>
        if scheme = "Bearer".toList then
          match jwt.ParseWithClaims J now tokenString m.keyFunc with
          | (_, some _) => m.reject e "Invalid token".toList
          | (none, none) => m.reject e "Invalid token".toList
          | (some token, none) =>
            if !token.Valid then
              m.reject e "Invalid token".toList
            else
              let ctx := r.Context
              next e (r.WithContext ctx)
        else m.reject e "Invalid authorization format".toList
      | _ => m.reject e "Invalid authorization format".toList

/-- The claims that `GenerateJWT` builds; `t1`, `t2`, `t3` are the results of its three
calls of `time.Now()`, in the order of the struct literal: `ExpiresAt`, `IssuedAt`,
`NotBefore`. -/
def AuthMiddleware.issuedClaims (_m : AuthMiddleware) (t1 t2 t3 : jwt.Time) (userID : Int)
    (username : GoString) : JWTClaims :=
  { UserID := userID, Username := username,
    Registered :=
      { ExpiresAt := some (jwt.NewNumericDate (t1 + 24 * jwt.Hour)),
        IssuedAt := some (jwt.NewNumericDate t2),
        NotBefore := some (jwt.NewNumericDate t3),
        Issuer := "message_processor".toList,
        Subject := [], Audience := [], ID := [] } }

/-- The method `GenerateJWT`: the claims signed with HS256 under the secret; `none` stands
for the error return. -/
def AuthMiddleware.GenerateJWT (m : AuthMiddleware) (J : jwt.Codec) (t1 t2 t3 : jwt.Time)
    (userID : Int) (username : GoString) : Option GoString :=
  let claims := m.issuedClaims t1 t2 t3 userID username
  jwt.SignedString J (.HMAC .SHA256) claims m.jwtSecret

/-- The method `CORS`. -/
def AuthMiddleware.CORS (_m : AuthMiddleware) (next : Handler) : Handler :=
  fun e r =>
    let w1 := e.w.SetHeader "Access-Control-Allow-Origin".toList "*".toList
    let w2 := w1.SetHeader "Access-Control-Allow-Methods".toList
      "GET, POST, PUT, DELETE, OPTIONS".toList
    let w3 := w2.SetHeader "Access-Control-Allow-Headers".toList
      "Content-Type, Authorization, X-API-Key".toList
    if r.Method = "OPTIONS".toList then { e with w := w3.WriteHeader 200 }
    else next { e with w := w3 } r

/-- The method `RateLimit`, which limits nothing. -/
def AuthMiddleware.RateLimit (_m : AuthMiddleware) (next : Handler) : Handler :=
  fun e r => next e r

/-- What it is for a gate to keep the protected handler `inner` behind its validation, of
the exchange `e1` in which the gate leaves `e` on the request `r`: either the handler ran
exactly once, on the writer as the gate received it, or the invocation record is as it
was and the writer holds one answer of `UnauthorizedResponse` (status 401 on a writer
that had sent nothing, and, when the write goes through, exactly the calls
`Header().Set`, `WriteHeader(401)` and one `Write`). -/
def AuthMiddleware.Guards (m : AuthMiddleware)
    (inner : ResponseWriter → Request → ResponseWriter) (e : Exchange) (r : Request)
    (e1 : Exchange) : Prop :=
  (e1.served = e.served ++ [r] ∧ e1.w = inner e.w r) ∨
  (∃ message, e1.served = e.served ∧ e1.w = m.UnauthorizedResponse e.w message ∧
    (e.w.wroteHeader = false → e1.w.wroteHeader = true ∧ e1.w.status = 401) ∧
    (e.w.nextWriteFails = false →
      e1.w.log = e.w.log ++
        [Event.setHeader "Content-Type".toList "application/json".toList,
         Event.writeHeader 401,
         Event.write (json.Marshal [("error".toList, message)] ++ ['\n'])]))

/-! ## A reference codec

A concrete `jwt.Codec`, used to run the gates on concrete tokens: unpadded URL-safe
base64, UTF-8, and the JSON text that the library writes for the header and for the
claims of this repository. The MAC is a stand-in (see `wire.standInMac`). -/

namespace wire

/-- The character of a six-bit value in the URL-safe alphabet. -/
def b64Char (n : Nat) : Char :=
  if n < 26 then Char.ofNat (65 + n)
  else if n < 52 then Char.ofNat (71 + n)
  else if n < 62 then Char.ofNat (n - 4)
  else if n = 62 then '-' else '_'

/-- The six-bit value of a character of the URL-safe alphabet. -/
def b64Val (c : Char) : Option Nat :=
  let n := c.toNat
  if 65 ≤ n ∧ n ≤ 90 then some (n - 65)
  else if 97 ≤ n ∧ n ≤ 122 then some (n - 71)
  else if 48 ≤ n ∧ n ≤ 57 then some (n + 4)
  else if c = '-' then some 62
  else if c = '_' then some 63
  else none

/-- Three bytes to four characters, without padding at the end. -/
def encodeTriples : List Nat → GoString
  | a :: b :: c :: rest =>
    b64Char (a / 4) :: b64Char (a % 4 * 16 + b / 16) :: b64Char (b % 16 * 4 + c / 64) ::
      b64Char (c % 64) :: encodeTriples rest
  | [a, b] => [b64Char (a / 4), b64Char (a % 4 * 16 + b / 16), b64Char (b % 16 * 4)]
  | [a] => [b64Char (a / 4), b64Char (a % 4 * 16)]
  | [] => []

/-- Four six-bit values to three bytes; a lone last value is an error. -/
def decodeQuads : List Nat → Option (List Nat)
  | x :: y :: z :: t :: rest =>
    match decodeQuads rest with
    | some bs => some ((x * 4 + y / 16) :: (y % 16 * 16 + z / 4) :: (z % 4 * 64 + t) :: bs)
    | none => none
  | [x, y, z] => some [x * 4 + y / 16, y % 16 * 16 + z / 4]
  | [x, y] => some [x * 4 + y / 16]
  | [_] => none
  | [] => some []

/-- The function `jwt.EncodeSegment`, `base64.RawURLEncoding.EncodeToString`. -/
def EncodeSegment (b : jwt.Bytes) : GoString :=
  encodeTriples (b.map UInt8.toNat)

/-- The function `jwt.DecodeSegment`, `base64.RawURLEncoding.DecodeString`: line breaks are
skipped, any other character outside the alphabet is an error. -/
def DecodeSegment (s : GoString) : Option jwt.Bytes :=
  match ((s.filter (fun c => c != '\n' && c != '\r')).map b64Val).allSome with
  | some vals => (decodeQuads vals).map (fun bs => bs.map UInt8.ofNat)
  | none => none

/-- The UTF-8 bytes of a character. -/
def utf8Char (c : Char) : List Nat :=
  let n := c.toNat
  if n < 128 then [n]
  else if n < 2048 then [192 + n / 64, 128 + n % 64]
  else if n < 65536 then [224 + n / 4096, 128 + n / 64 % 64, 128 + n % 64]
  else [240 + n / 262144, 128 + n / 4096 % 64, 128 + n / 64 % 64, 128 + n % 64]

/-- The conversion `[]byte(s)`. -/
def toBytes (s : GoString) : jwt.Bytes :=
  (s.flatMap utf8Char).map UInt8.ofNat

/-- Read UTF-8; the fuel bounds the number of characters. An ill-formed sequence is an
error. -/
def utf8Decode : Nat → List Nat → Option GoString
  | 0, [] => some []
  | 0, _ :: _ => none
  | _ + 1, [] => some []
  | k + 1, a :: rest =>
    if a < 128 then (utf8Decode k rest).map (Char.ofNat a :: ·)
    else if 192 ≤ a ∧ a < 224 then
      match rest with
      | b :: rest1 => (utf8Decode k rest1).map (Char.ofNat ((a - 192) * 64 + b % 64) :: ·)
      | _ => none
    else if 224 ≤ a ∧ a < 240 then
      match rest with
      | b :: c :: rest1 =>
        (utf8Decode k rest1).map (Char.ofNat (((a - 224) * 64 + b % 64) * 64 + c % 64) :: ·)
      | _ => none
    else if 240 ≤ a ∧ a < 248 then
      match rest with
      | b :: c :: d :: rest1 =>
        (utf8Decode k rest1).map
          (Char.ofNat ((((a - 240) * 64 + b % 64) * 64 + c % 64) * 64 + d % 64) :: ·)
      | _ => none
    else none

/-- The conversion `string(b)` of well-formed UTF-8. -/
def ofBytes (b : jwt.Bytes) : Option GoString :=
  utf8Decode b.length (b.map UInt8.toNat)

/-- A member value of the claims object: a string or an integer. -/
inductive Value where
  | str (s : GoString)
  | num (n : Int)
  deriving DecidableEq, Repr

/-- Read the decimal digits at the head of the input. -/
def readDigits : GoString → Nat → Nat × GoString
  | [], acc => (acc, [])
  | c :: t, acc => if c.isDigit then readDigits t (acc * 10 + (c.toNat - 48)) else (acc, c :: t)

/-- Read a string or an integer after white space. -/
def readValue (s : GoString) : Option (Value × GoString) :=
  match json.skipWS s with
  | c :: t =>
    if c = '"' then (json.readString t).map (fun p => (Value.str p.1, p.2))
    else if c = '-' then
      match t with
      | d :: _ => if d.isDigit then
          some (Value.num (-((readDigits t 0).1 : Int)), (readDigits t 0).2) else none
      | [] => none
    else if c.isDigit then some (Value.num ((readDigits (c :: t) 0).1 : Int), (readDigits (c :: t) 0).2)
    else none
  | [] => none

/-- Read the members of an object of strings and integers up to its closing brace. -/
def readFields : Nat → GoString → Option (List (GoString × Value))
  | 0, _ => none
  | n + 1, s =>
    match json.readQuoted s with
    | none => none
    | some (k, s1) =>
      match json.skipWS s1 with
      | c :: s2 =>
        if c = ':' then
          match readValue s2 with
          | none => none
          | some (v, s3) =>
            match json.skipWS s3 with
            | d :: s4 =>
              if d = '}' then (if json.skipWS s4 = [] then some [(k, v)] else none)
              else if d = ',' then (readFields n s4).map ((k, v) :: ·)
              else none
            | [] => none
        else none
      | [] => none

/-- Read an object of strings and integers. -/
def readRecord (s : GoString) : Option (List (GoString × Value)) :=
  match json.skipWS s with
  | c :: s1 =>
    if c = '{' then
      match json.skipWS s1 with
      | d :: s2 => if d = '}' then (if json.skipWS s2 = [] then some [] else none)
                   else readFields s.length (d :: s2)
      | [] => none
    else none
  | [] => none

/-- The JSON text of an integer. -/
def showInt (n : Int) : GoString :=
  if n < 0 then '-' :: Nat.toDigits 10 n.natAbs else Nat.toDigits 10 n.natAbs

/-- The JSON of a token header: the library writes the map with its keys sorted. -/
def marshalHeader (h : jwt.JOSEHeader) : jwt.Bytes :=
  toBytes (json.Marshal
    ((match h.alg with | some a => [("alg".toList, a)] | none => []) ++
     (match h.typ with | some t => [("typ".toList, t)] | none => [])))

/-- Read a token header whose members are strings. -/
def unmarshalHeader (b : jwt.Bytes) : Option jwt.JOSEHeader :=
  match (ofBytes b).bind json.readObject with
  | some ms => some { typ := ms.lookup "typ".toList, alg := ms.lookup "alg".toList }
  | none => none

/-- A string member, left out when empty (`omitempty`). -/
def optString (k : String) (v : GoString) : List GoString :=
  if v = [] then [] else [json.quote k.toList ++ ':' :: json.quote v]

/-- A date member in whole seconds, left out when absent. -/
def optDate (k : String) (v : Option jwt.Time) : List GoString :=
  match v with
  | some t => [json.quote k.toList ++ ':' :: showInt (t / jwt.Second)]
  | none => []

/-- The JSON of `JWTClaims`, members in the order of the struct fields; the audience is
written as an array. -/
def marshalClaims (c : JWTClaims) : jwt.Bytes :=
  let members : List GoString :=
    [json.quote "user_id".toList ++ ':' :: showInt c.UserID,
     json.quote "username".toList ++ ':' :: json.quote c.Username] ++
    optString "iss" c.Registered.Issuer ++ optString "sub" c.Registered.Subject ++
    (if c.Registered.Audience = [] then []
     else [json.quote "aud".toList ++ ':' :: '[' ::
       ([','].intercalate (c.Registered.Audience.map json.quote) ++ [']'])]) ++
    optDate "exp" c.Registered.ExpiresAt ++ optDate "nbf" c.Registered.NotBefore ++
    optDate "iat" c.Registered.IssuedAt ++ optString "jti" c.Registered.ID
  toBytes ('{' :: ([','].intercalate members ++ ['}']))

/-- The string value of a member, `""` when absent; `none` when it is not a string. -/
def fieldString (ms : List (GoString × Value)) (k : String) : Option GoString :=
  match ms.lookup k.toList with
  | some (Value.str s) => some s
  | some (Value.num _) => none
  | none => some []

/-- The date value of a member in seconds, absent when the member is; `none` when it is
not a non-negative integer. -/
def fieldDate (ms : List (GoString × Value)) (k : String) : Option (Option jwt.Time) :=
  match ms.lookup k.toList with
  | some (Value.num n) => if 0 ≤ n then some (some (n.toNat * jwt.Second)) else none
  | some (Value.str _) => none
  | none => some none

/-- Read the claims of a token whose members are strings and integers (an audience is
not read). -/
def unmarshalClaims (b : jwt.Bytes) : Option JWTClaims :=
  match (ofBytes b).bind readRecord with
  | none => none
  | some ms =>
    match (match ms.lookup "user_id".toList with
           | some (Value.num n) => some n
           | some (Value.str _) => none
           | none => some 0),
      fieldString ms "username", fieldString ms "iss", fieldString ms "sub",
      fieldDate ms "exp", fieldDate ms "nbf", fieldDate ms "iat", fieldString ms "jti" with
    | some uid, some un, some iss, some sub, some exp, some nbf, some iat, some jti =>
      some { UserID := uid, Username := un,
             Registered := { Issuer := iss, Subject := sub, Audience := [], ExpiresAt := exp,
                             NotBefore := nbf, IssuedAt := iat, ID := jti } }
    | _, _, _, _, _, _, _, _ => none

/-- A stand-in for HMAC: the hash name, the key and the message, each preceded by its
length. It is a function of exactly what an HMAC is a function of, and distinct inputs
give distinct outputs; no digest is computed. -/
def standInMac (h : jwt.Hash) (key msg : GoString) : jwt.Bytes :=
  toBytes (h.bits ++ ':' :: Nat.toDigits 10 key.length ++ ':' :: key ++
    ':' :: Nat.toDigits 10 msg.length ++ ':' :: msg)

/-- The reference codec. -/
def codec : jwt.Codec :=
  { EncodeSegment := EncodeSegment, DecodeSegment := DecodeSegment,
    marshalHeader := marshalHeader, unmarshalHeader := unmarshalHeader,
    marshalClaims := marshalClaims, unmarshalClaims := unmarshalClaims,
    hmac := standInMac }

end wire

/-! ## What the round trip asks of the primitives, and example values -/

/-- The header that `jwt.NewWithClaims` gives an HS256 token. -/
def jwt.hs256Header : jwt.JOSEHeader :=
  { typ := some "JWT".toList, alg := some (jwt.SigningMethod.HMAC jwt.Hash.SHA256).Alg }

/-- The primitives round-trip on what the issuer writes for `claims` under `key`: the
header segment and the claims segment decode to the header and to the claims, the
signature segment decodes to the MAC, and no segment holds a dot. -/
def jwt.Codec.RoundTrips (J : jwt.Codec) (key : GoString) (claims : JWTClaims) : Prop :=
  (J.DecodeSegment (J.EncodeSegment (J.marshalHeader jwt.hs256Header))).bind J.unmarshalHeader
    = some jwt.hs256Header ∧
  (J.DecodeSegment (J.EncodeSegment (J.marshalClaims claims))).bind J.unmarshalClaims
    = some claims ∧
  J.DecodeSegment (J.EncodeSegment (J.hmac jwt.Hash.SHA256 key
      (J.EncodeSegment (J.marshalHeader jwt.hs256Header) ++
        '.' :: J.EncodeSegment (J.marshalClaims claims))))
    = some (J.hmac jwt.Hash.SHA256 key
      (J.EncodeSegment (J.marshalHeader jwt.hs256Header) ++
        '.' :: J.EncodeSegment (J.marshalClaims claims))) ∧
  '.' ∉ J.EncodeSegment (J.marshalHeader jwt.hs256Header) ∧
  '.' ∉ J.EncodeSegment (J.marshalClaims claims) ∧
  '.' ∉ J.EncodeSegment (J.hmac jwt.Hash.SHA256 key
      (J.EncodeSegment (J.marshalHeader jwt.hs256Header) ++
        '.' :: J.EncodeSegment (J.marshalClaims claims)))

namespace Example

/-- A middleware with the secret `secret` and the key prefix `API_`. -/
def middleware : AuthMiddleware := NewAuthMiddleware "secret".toList "API_".toList

/-- A protected handler that answers `ok`. -/
def inner : ResponseWriter → Request → ResponseWriter :=
  fun w _ => (w.Write "ok".toList).1

/-- An exchange on which nothing has happened; the script is that of the writer. -/
def start (faults : List (Option Nat)) : Exchange :=
  { w := ResponseWriter.fresh faults, served := [] }

/-- A `GET` request with one header field. -/
def withHeader (key value : String) : Request :=
  { Method := "GET".toList, Path := "/".toList, Header := ⟨[(key.toList, [value.toList])]⟩,
    Query := ⟨[]⟩, ctx := [] }

/-- A `GET` request with one query parameter and no header field. -/
def withQuery (key value : String) : Request :=
  { Method := "GET".toList, Path := "/".toList, Header := ⟨[]⟩,
    Query := ⟨[(key.toList, [value.toList])]⟩, ctx := [] }

/-- A `GET` request whose `Authorization` header is `Bearer ` and the token. -/
def bearer (token : GoString) : Request :=
  { Method := "GET".toList, Path := "/".toList,
    Header := ⟨[("Authorization".toList, ["Bearer ".toList ++ token])]⟩,
    Query := ⟨[]⟩, ctx := [] }

/-- An instant: 1700000000.123456789 seconds. -/
def now : jwt.Time := 1700000000123456789

/-- Claims that are valid at `now`. -/
def claims : JWTClaims :=
  { UserID := 42, Username := "alice".toList,
    Registered := { Issuer := "message_processor".toList, Subject := [], Audience := [],
                    ExpiresAt := some 1700086400000000000,
                    NotBefore := some 1700000000000000000,
                    IssuedAt := some 1700000000000000000, ID := [] } }

/-- A token over `claims` whose header declares `sm` and whose signature segment is the
MAC of the first two segments under the middleware secret, computed with `h`. -/
def tokenWith (alg : String) (h : jwt.Hash) : GoString :=
  let sstr := wire.EncodeSegment (wire.marshalHeader ⟨some "JWT".toList, some alg.toList⟩) ++
    '.' :: wire.EncodeSegment (wire.marshalClaims claims)
  sstr ++ '.' :: wire.EncodeSegment (wire.standInMac h middleware.jwtSecret sstr)

end Example

/-- The three permissive cross-origin fields, read from a header map. -/
def Header.Permissive (h : Header) : Prop :=
  h.Get "Access-Control-Allow-Origin".toList = "*".toList ∧
  h.Get "Access-Control-Allow-Methods".toList = "GET, POST, PUT, DELETE, OPTIONS".toList ∧
  h.Get "Access-Control-Allow-Headers".toList
    = "Content-Type, Authorization, X-API-Key".toList

/-! ## `cmd/server/main.go`: the router -/

namespace http

/-- The function `http.Error`: a plain-text answer with the given status. -/
def Error (w : ResponseWriter) (error : GoString) (code : Nat) : ResponseWriter :=
  let w1 := w.SetHeader "Content-Type".toList "text/plain; charset=utf-8".toList
  let w2 := w1.SetHeader "X-Content-Type-Options".toList "nosniff".toList
  let w3 := w2.WriteHeader code
  (w3.Write (error ++ ['\n'])).1

/-- The handler `http.NotFoundHandler()`. -/
def NotFound : Handler :=
  fun e _ => { e with w := Error e.w "404 page not found".toList 404 }

/-- An `http.ServeMux` whose patterns are plain paths without a trailing slash, as all
patterns of this repository are: such a pattern matches the requests whose path is the
pattern. The redirect that the mux answers to a path that is not in canonical form is
not part of the embedding; a path that matches no pattern is answered `404`. -/
structure ServeMux where
  entries : List (GoString × Handler)

/-- The function `http.NewServeMux`. -/
def NewServeMux : ServeMux := ⟨[]⟩

/-- The method `ServeMux.Handle` (and `HandleFunc`, a handler being a function here). -/
def ServeMux.Handle (mux : ServeMux) (pattern : GoString) (h : Handler) : ServeMux :=
  ⟨mux.entries ++ [(pattern, h)]⟩

/-- The method `ServeMux.ServeHTTP`: the handler registered for the path, or `NotFound`. -/
def ServeMux.ServeHTTP (mux : ServeMux) : Handler :=
  fun e r =>
    match mux.entries.lookup r.Path with
    | some h => h e r
    | none => NotFound e r

end http

/-- The three methods of `*api.Handler` that the router registers, taken as given. -/
structure api.Handler where
  HealthCheck : MessageProcessor.Handler
  ProcessMessageHandler : MessageProcessor.Handler
  GetResourceHandler : MessageProcessor.Handler

/-- The function `setupRouter`; the codec and the instant are those of the bearer-token
gate. -/
def setupRouter (handler : api.Handler) (authMiddleware : AuthMiddleware) (J : jwt.Codec)
    (now : jwt.Time) : http.ServeMux :=
  let mux := http.NewServeMux
  let mux := mux.Handle "/health".toList handler.HealthCheck
  let public := http.NewServeMux
  let public := public.Handle "/api/v1/message".toList handler.ProcessMessageHandler
  let protected1 := http.NewServeMux
  let protected1 := protected1.Handle "/api/v1/resource".toList handler.GetResourceHandler
  let mux := mux.Handle "/api/v1/message".toList (authMiddleware.APIKeyAuth public.ServeHTTP)
  let mux := mux.Handle "/api/v1/resource".toList
    (authMiddleware.JWTAuth J now protected1.ServeHTTP)
  mux

/-! ## `utils/helpers.go` -/

/-- The outcome of a Go call that returns a value or an error, or panics. -/
inductive Result (α : Type) where
  | value (a : α)
  | error
  | panic
  deriving DecidableEq, Repr

namespace base64

/-- The alphabet `encodeURL` of `base64.URLEncoding`. -/
def encodeURL : GoString :=
  "ABCDEFGHIJKLMNOPQRSTUVWXYZabcdefghijklmnopqrstuvwxyz0123456789-_".toList

/-- Three bytes to four characters, the last group padded with `=`. -/
def encodePadded : List Nat → GoString
  | a :: b :: c :: rest =>
    wire.b64Char (a / 4) :: wire.b64Char (a % 4 * 16 + b / 16) ::
      wire.b64Char (b % 16 * 4 + c / 64) :: wire.b64Char (c % 64) :: encodePadded rest
  | [a, b] =>
    [wire.b64Char (a / 4), wire.b64Char (a % 4 * 16 + b / 16), wire.b64Char (b % 16 * 4), '=']
  | [a] => [wire.b64Char (a / 4), wire.b64Char (a % 4 * 16), '=', '=']
  | [] => []

/-- The method `base64.URLEncoding.EncodeToString`. -/
def URLEncoding.EncodeToString (b : jwt.Bytes) : GoString :=
  encodePadded (b.map UInt8.toNat)

end base64

namespace utils

/-- The function `TruncateString`, on the bytes of the string: `len` counts bytes and the
slice expression cuts bytes. A slice with a negative bound panics. -/
def TruncateString (s : jwt.Bytes) (maxLen : Int) : Result jwt.Bytes :=
  if (s.length : Int) ≤ maxLen then Result.value s
  else if maxLen < 0 then Result.panic
  else Result.value (s.take maxLen.toNat ++ wire.toBytes "...".toList)

/-- The function `GenerateRandomString`. `source` stands for `rand.Read`: `none` when it
returns an error, otherwise the byte it stores at each index of the slice. `make` panics
on a negative length, and the slice expression panics when the encoding is shorter than
`length`. -/
def GenerateRandomString (source : Option (Nat → UInt8)) (length : Int) : Result GoString :=
  if length < 0 then Result.panic
  else
    match source with
    | none => Result.error
    | some f =>
      let bytes := (List.range length.toNat).map f
      let encoded := base64.URLEncoding.EncodeToString bytes
      if length.toNat ≤ encoded.length then Result.value (encoded.take length.toNat)
      else Result.panic

end utils

namespace Example

/-- Handlers of the API that answer `ok`, each recording that it was entered. -/
def handlers : api.Handler :=
  { HealthCheck := observed inner, ProcessMessageHandler := observed inner,
    GetResourceHandler := observed inner }

/-- The router of the example middleware. -/
def router : http.ServeMux := setupRouter handlers middleware wire.codec now

/-- An `OPTIONS` request on a path, with no header field and no query. -/
def preflight (path : String) : Request :=
  { Method := "OPTIONS".toList, Path := path.toList, Header := ⟨[]⟩, Query := ⟨[]⟩, ctx := [] }

/-- A source of random bytes: the byte at index `i` is `37 * i + 11`. -/
def bytesSource : Nat → UInt8 := fun i => UInt8.ofNat (37 * i + 11)

end Example

/-! ## Strings that hold arbitrary bytes

A `string` of Go is a sequence of bytes, and the argument of an exported method need not be
text. Two methods encode a string of their caller as JSON: `UnauthorizedResponse` its
message and `GenerateJWT` the user name. The encoder reads such a string rune by rune and
writes `\ufffd` for every byte that starts no well-formed UTF-8 sequence. This section
gives `utf8.DecodeRuneInString`, the encoder on byte strings, and the two methods on byte
strings, in the namespace `raw`; on the UTF-8 bytes of text they are the methods above. -/

namespace utf8

/-- The constant `utf8.RuneError`, U+FFFD. -/
def RuneError : Nat := 65533

/-- The tables `first` and `acceptRanges` for a first byte from `0x80` on: the length of
the sequence that the byte starts and the lowest and the highest second byte that it
accepts; `none` for a byte that starts no sequence. -/
def first (b : Nat) : Option (Nat × Nat × Nat) :=
  if 194 ≤ b ∧ b ≤ 223 then some (2, 128, 191)
  else if b = 224 then some (3, 160, 191)
  else if 225 ≤ b ∧ b ≤ 236 then some (3, 128, 191)
  else if b = 237 then some (3, 128, 159)
  else if 238 ≤ b ∧ b ≤ 239 then some (3, 128, 191)
  else if b = 240 then some (4, 144, 191)
  else if 241 ≤ b ∧ b ≤ 243 then some (4, 128, 191)
  else if b = 244 then some (4, 128, 143)
  else none

/-- The function `utf8.DecodeRuneInString` on the values of the bytes: the first rune and
its width in bytes; `(RuneError, 1)` when the bytes do not start with a well-formed
sequence, `(RuneError, 0)` when there is none. -/
def DecodeRuneInString (s : List Nat) : Nat × Nat :=
  match s with
  | [] => (RuneError, 0)
  | s0 :: rest =>
    if s0 < 128 then (s0, 1)
    else
      match first s0 with
      | none => (RuneError, 1)
      | some (sz, lo, hi) =>
        if s.length < sz then (RuneError, 1)
        else
          match rest with
          | [] => (RuneError, 1)
          | s1 :: rest1 =>
            if s1 < lo ∨ hi < s1 then (RuneError, 1)
            else if sz ≤ 2 then (s0 % 32 * 64 + s1 % 64, 2)
            else
              match rest1 with
              | [] => (RuneError, 1)
              | s2 :: rest2 =>
                if s2 < 128 ∨ 191 < s2 then (RuneError, 1)
                else if sz ≤ 3 then (s0 % 16 * 4096 + s1 % 64 * 64 + s2 % 64, 3)
                else
                  match rest2 with
                  | [] => (RuneError, 1)
                  | s3 :: _ =>
                    if s3 < 128 ∨ 191 < s3 then (RuneError, 1)
                    else (s0 % 8 * 262144 + s1 % 64 * 4096 + s2 % 64 * 64 + s3 % 64, 4)

end utf8

namespace json

/-- The loop of `appendString` with HTML escaping, on the values of the bytes of the
source; the fuel bounds the number of iterations, each of which consumes at least one
byte. The result is the text written: an ASCII byte as the encoder of text writes its
character, a byte that starts no well-formed sequence as the six characters `\ufffd`,
the line and the paragraph separator as `\u2028` and `\u2029`, and the bytes of any
other well-formed sequence unchanged, that is, as the character that they encode. -/
def appendStringLoop : Nat → List Nat → GoString
  | 0, _ => []
  | _ + 1, [] => []
  | n + 1, b :: rest =>
    if b < 128 then escapeChar (Char.ofNat b) ++ appendStringLoop n rest
    else
      match utf8.DecodeRuneInString ((b :: rest).take 4) with
      | (c, size) =>
        if c = utf8.RuneError ∧ size = 1 then
          "\\ufffd".toList ++ appendStringLoop n ((b :: rest).drop size)
        else if c = 8232 ∨ c = 8233 then
          ['\\', 'u', '2', '0', '2', hexDigit (c % 16)] ++
            appendStringLoop n ((b :: rest).drop size)
        else Char.ofNat c :: appendStringLoop n ((b :: rest).drop size)

/-- The function `appendString` of the encoder, on the bytes of a Go string: the string
literal written, between its quotes. -/
def appendString (src : List UInt8) : GoString :=
  '"' :: (appendStringLoop src.length (src.map UInt8.toNat) ++ ['"'])

end json

namespace raw

/-- The members of an object whose keys and values are byte strings, comma separated. -/
def marshalMembers : List (jwt.Bytes × jwt.Bytes) → GoString
  | [] => []
  | [(k, v)] => json.appendString k ++ ':' :: json.appendString v
  | (k, v) :: rest =>
    json.appendString k ++ ':' :: json.appendString v ++ ',' :: marshalMembers rest

/-- The function `json.Marshal` on a `map[string]string` whose strings may hold any bytes,
given as its key-sorted list of entries. -/
def Marshal (m : List (jwt.Bytes × jwt.Bytes)) : GoString :=
  '{' :: (marshalMembers m ++ ['}'])

/-- The call `json.NewEncoder(w).Encode(m)` on such a map. -/
def Encode (w : ResponseWriter) (m : List (jwt.Bytes × jwt.Bytes)) : ResponseWriter × Bool :=
  w.Write (Marshal m ++ ['\n'])

/-- The method `UnauthorizedResponse` on a message that may be any byte string. -/
def UnauthorizedResponse (_m : AuthMiddleware) (w : ResponseWriter)
    (message : jwt.Bytes) : ResponseWriter :=
  let w1 := w.SetHeader "Content-Type".toList "application/json".toList
  let w2 := w1.WriteHeader 401
  let response := [(wire.toBytes "error".toList, message)]
  match Encode w2 response with
  | (w3, true) => ((w3.WriteHeader 500).Write encodeFailureBody).1
  | (w3, false) => w3

/-- The struct `JWTClaims` with the user name as the bytes of the Go string. -/
structure JWTClaims where
  UserID : Int
  Username : jwt.Bytes
  Registered : jwt.RegisteredClaims
  deriving DecidableEq, Repr

/-- The claims that `GenerateJWT` builds from its arguments and from its three calls of
`time.Now()`. -/
def issuedClaims (_m : AuthMiddleware) (t1 t2 t3 : jwt.Time) (userID : Int)
    (username : jwt.Bytes) : JWTClaims :=
  { UserID := userID, Username := username,
    Registered :=
      { ExpiresAt := some (jwt.NewNumericDate (t1 + 24 * jwt.Hour)),
        IssuedAt := some (jwt.NewNumericDate t2),
        NotBefore := some (jwt.NewNumericDate t3),
        Issuer := "message_processor".toList,
        Subject := [], Audience := [], ID := [] } }

/-- The JSON that `json.Marshal` writes for `JWTClaims`: the members of
`wire.marshalClaims`, the user name encoded from its bytes. -/
def marshalClaims (c : JWTClaims) : jwt.Bytes :=
  let members : List GoString :=
    [json.quote "user_id".toList ++ ':' :: wire.showInt c.UserID,
     json.quote "username".toList ++
       ':' :: json.appendString c.Username] ++
    wire.optString "iss" c.Registered.Issuer ++ wire.optString "sub" c.Registered.Subject ++
    (if c.Registered.Audience = [] then []
     else [json.quote "aud".toList ++ ':' :: '[' ::
       ([','].intercalate (c.Registered.Audience.map json.quote) ++ [']'])]) ++
    wire.optDate "exp" c.Registered.ExpiresAt ++ wire.optDate "nbf" c.Registered.NotBefore ++
    wire.optDate "iat" c.Registered.IssuedAt ++ wire.optString "jti" c.Registered.ID
  wire.toBytes ('{' :: ([','].intercalate members ++ ['}']))

/-- The function `jwt.NewWithClaims` followed by `Token.SignedString`, on claims whose user
name is a byte string. -/
def SignedString (J : jwt.Codec) (sm : jwt.SigningMethod) (claims : JWTClaims)
    (key : GoString) : Option GoString :=
  let header : jwt.JOSEHeader := { typ := some "JWT".toList, alg := some sm.Alg }
  let sstr := J.EncodeSegment (J.marshalHeader header) ++
    '.' :: J.EncodeSegment (marshalClaims claims)
  match sm.Sign J sstr key with
  | some sig => some (sstr ++ '.' :: sig)
  | none => none

/-- The method `GenerateJWT` on a user name that may be any byte string. -/
def GenerateJWT (m : AuthMiddleware) (J : jwt.Codec) (t1 t2 t3 : jwt.Time)
    (userID : Int) (username : jwt.Bytes) : Option GoString :=
  let claims := issuedClaims m t1 t2 t3 userID username
  SignedString J (.HMAC .SHA256) claims m.jwtSecret

end raw

/-- The reference codec with the function `mac` as its HMAC. -/
def wire.codecWith (mac : jwt.Hash → GoString → GoString → jwt.Bytes) : jwt.Codec :=
  { wire.codec with hmac := mac }

/-! ## Properties -/

set_option maxRecDepth 100000

/-! ### Strings -/

theorem strings.HasPrefix_iff (s pre : GoString) :
    strings.HasPrefix s pre = true ↔ pre <+: s := by
  unfold strings.HasPrefix
  constructor
  · intro h
    simp only [Bool.and_eq_true, decide_eq_true_eq, beq_iff_eq] at h
    have h3 := List.take_append_drop pre.length s
    rw [h.2] at h3
    exact ⟨s.drop pre.length, h3⟩
  · rintro ⟨t, rfl⟩
    simp

theorem strings.Index_char_spec (c : Char) (s : GoString) (m : Nat)
    (h : strings.Index s [c] = some m) :
    s = s.take m ++ c :: s.drop (m + 1) ∧ c ∉ s.take m := by
  induction s generalizing m with
  | nil => simp [strings.Index] at h
  | cons a t ih =>
    rw [strings.Index] at h
    by_cases hac : a = c
    · subst hac
      simp at h
      subst h
      simp
    · have hpre : List.isPrefixOf [c] (a :: t) = false := by
        simp [List.isPrefixOf, Ne.symm hac]
      rw [hpre] at h
      simp only [Bool.false_eq_true, if_false, Option.map_eq_some'] at h
      obtain ⟨k, hk, rfl⟩ := h
      obtain ⟨h1, h2⟩ := ih k hk
      refine ⟨?_, ?_⟩
      · simp only [List.take_succ_cons, List.drop_succ_cons, List.cons_append]
        rw [← h1]
      · simp only [List.take_succ_cons, List.mem_cons, not_or]
        exact ⟨Ne.symm hac, h2⟩

theorem strings.Index_char_append (c : Char) (a b : GoString) (h : c ∉ a) :
    strings.Index (a ++ c :: b) [c] = some a.length := by
  induction a with
  | nil => simp [strings.Index]
  | cons x t ih =>
    have hx : c ≠ x := fun hcx => h (by simp [hcx])
    have ht : c ∉ t := fun hm => h (List.mem_cons_of_mem _ hm)
    rw [List.cons_append, strings.Index]
    have hpre : List.isPrefixOf [c] (x :: (t ++ c :: b)) = false := by
      simp [List.isPrefixOf, hx]
    rw [hpre, ih ht]
    simp

theorem strings.Index_char_none (c : Char) (s : GoString) (h : c ∉ s) :
    strings.Index s [c] = none := by
  induction s with
  | nil => simp [strings.Index]
  | cons x t ih =>
    have hx : c ≠ x := fun hcx => h (by simp [hcx])
    have ht : c ∉ t := fun hm => h (List.mem_cons_of_mem _ hm)
    rw [strings.Index]
    have hpre : List.isPrefixOf [c] (x :: t) = false := by
      simp [List.isPrefixOf, hx]
    rw [hpre, ih ht]
    simp

/-- Cutting a `Bearer ` header at its first space gives the scheme and the token. -/
theorem strings.SplitN_bearer (tok : GoString) :
    strings.SplitN ("Bearer ".toList ++ tok) [' '] 2 = ["Bearer".toList, tok] := by
  have hi := strings.Index_char_append ' ' "Bearer".toList tok (by decide)
  have hs : "Bearer ".toList ++ tok = "Bearer".toList ++ ' ' :: tok := by simp
  have hlen : min (2 : Int).toNat (("Bearer".toList ++ ' ' :: tok).length + 1) - 1 = 1 := by
    simp
  unfold strings.SplitN
  rw [hs, if_neg (by decide), if_neg (by decide), hlen, strings.splitLoop, hi]
  simp [strings.splitLoop]

/-- A header that `SplitN` cuts into the scheme `Bearer` and a second piece is `Bearer `
followed by that piece. -/
theorem strings.SplitN_two (s a b : GoString) (h : strings.SplitN s [' '] 2 = [a, b]) :
    s = a ++ ' ' :: b := by
  unfold strings.SplitN at h
  rw [if_neg (by decide), if_neg (by decide)] at h
  cases s with
  | nil => simp [strings.splitLoop] at h
  | cons x t =>
    have hlen : min (2 : Int).toNat ((x :: t).length + 1) - 1 = 1 := by
      simp
    rw [hlen, strings.splitLoop] at h
    cases hi : strings.Index (x :: t) [' '] with
    | none => rw [hi] at h; simp at h
    | some m =>
      rw [hi] at h
      simp only [strings.splitLoop, List.length_singleton, List.cons.injEq, and_true] at h
      have hsp := (strings.Index_char_spec ' ' (x :: t) m hi).1
      rw [h.1, h.2] at hsp
      exact hsp


theorem json.hexVal_hexDigit (n : Nat) (h : n < 16) : json.hexVal (json.hexDigit n) = some n := by
  interval_cases n <;> decide

theorem json.readString_quote (rest : GoString) :
    json.readString ('"' :: rest) = some ([], rest) := by
  rw [json.readString.eq_def]; simp

theorem json.readString_simple (e ch : Char) (tail s r : GoString) (hu : e ≠ 'u')
    (he : json.simpleEscape e = some ch) (h : json.readString tail = some (s, r)) :
    json.readString ('\\' :: e :: tail) = some (ch :: s, r) := by
  rw [json.readString.eq_def]
  simp [hu, he, h]

theorem json.readString_unicode (a b c d ch : Char) (tail s r : GoString)
    (he : json.unicodeEscape a b c d = some ch) (h : json.readString tail = some (s, r)) :
    json.readString ('\\' :: 'u' :: a :: b :: c :: d :: tail) = some (ch :: s, r) := by
  rw [json.readString.eq_def]
  simp [he, h]

theorem json.readString_plain (c : Char) (tail s r : GoString) (h1 : c ≠ '"') (h2 : c ≠ '\\')
    (h3 : ¬ c.toNat < 32) (h : json.readString tail = some (s, r)) :
    json.readString (c :: tail) = some (c :: s, r) := by
  rw [json.readString.eq_def]
  simp [h1, h2, h3, h]

theorem json.unicodeEscape_low (c : Char) (h : c.toNat < 256) :
    json.unicodeEscape '0' '0' (json.hexDigit (c.toNat / 16)) (json.hexDigit (c.toNat % 16))
      = some c := by
  have h0 : json.hexVal '0' = some 0 := by decide
  have h1 := json.hexVal_hexDigit (c.toNat / 16) (by omega)
  have h2 := json.hexVal_hexDigit (c.toNat % 16) (by omega)
  unfold json.unicodeEscape
  rw [h0, h1, h2]
  have h3 : ((0 * 16 + 0) * 16 + c.toNat / 16) * 16 + c.toNat % 16 = c.toNat := by omega
  simp only [h3]
  rw [if_pos (by omega)]
  simp [Char.ofNat_toNat]

theorem json.readString_escapeChar (c : Char) (tail s r : GoString)
    (h : json.readString tail = some (s, r)) :
    json.readString (json.escapeChar c ++ tail) = some (c :: s, r) := by
  unfold json.escapeChar
  split_ifs with h1 h2 h3 h4 h5 h6 h7 h8 h9
  · exact json.readString_simple _ _ _ _ _ (by decide) (by subst h1; decide) h
  · exact json.readString_simple _ _ _ _ _ (by decide) (by subst h2; decide) h
  · exact json.readString_simple _ _ _ _ _ (by decide) (by subst h3; decide) h
  · exact json.readString_simple _ _ _ _ _ (by decide) (by subst h4; decide) h
  · exact json.readString_simple _ _ _ _ _ (by decide) (by subst h5; decide) h
  · exact json.readString_simple _ _ _ _ _ (by decide) (by subst h6; decide) h
  · exact json.readString_simple _ _ _ _ _ (by decide) (by subst h7; decide) h
  · have hc : c.toNat < 256 := by
      rcases h8 with h8 | h8 | h8 | h8
      · omega
      · subst h8; decide
      · subst h8; decide
      · subst h8; decide
    exact json.readString_unicode _ _ _ _ _ _ _ _ (json.unicodeEscape_low c hc) h
  · refine json.readString_unicode _ _ _ _ _ _ _ _ ?_ h
    rcases h9 with h9 | h9 <;> subst h9 <;> decide
  · refine json.readString_plain c tail s r h1 h2 ?_ h
    intro hlt
    exact h8 (Or.inl hlt)

theorem json.readString_flatMap (s tail : GoString) :
    json.readString (s.flatMap json.escapeChar ++ '"' :: tail) = some (s, tail) := by
  induction s with
  | nil => exact json.readString_quote tail
  | cons c t ih =>
    rw [List.flatMap_cons, List.append_assoc]
    exact json.readString_escapeChar c _ t tail ih

theorem json.readQuoted_quote (s tail : GoString) :
    json.readQuoted (json.quote s ++ tail) = some (s, tail) := by
  unfold json.readQuoted json.quote
  simp only [List.cons_append, List.append_assoc, List.singleton_append]
  rw [json.skipWS]
  simp [json.readString_flatMap]

theorem json.skipWS_cons (c : Char) (t : GoString)
    (h : ¬ (c = ' ' ∨ c = '\n' ∨ c = '\t' ∨ c = '\r')) : json.skipWS (c :: t) = c :: t := by
  rw [json.skipWS, if_neg h]

theorem json.readMembers_single (n : Nat) (k v r : GoString) :
    json.readMembers (n + 1) (json.quote k ++ ':' :: (json.quote v ++ '}' :: r))
      = some ([(k, v)], r) := by
  rw [json.readMembers, json.readQuoted_quote]
  simp only []
  rw [json.skipWS_cons _ _ (by decide)]
  simp only []
  rw [if_pos trivial, json.readQuoted_quote]
  simp only []
  rw [json.skipWS_cons _ _ (by decide)]
  simp only []
  rw [if_pos trivial]

/-- A body written by the encoder for a one-member map reads back as that member. -/
theorem json.readObject_Marshal_single (k v : GoString) :
    json.readObject (json.Marshal [(k, v)] ++ ['\n']) = some [(k, v)] := by
  have hm : json.Marshal [(k, v)] ++ ['\n']
      = '{' :: (json.quote k ++ ':' :: (json.quote v ++ '}' :: ['\n'])) := by
    simp [json.Marshal, json.marshalMembers]
  have hq : json.quote k ++ ':' :: (json.quote v ++ '}' :: ['\n'])
      = '"' :: (k.flatMap json.escapeChar ++ '"' :: ':' :: (json.quote v ++ '}' :: ['\n'])) := by
    simp [json.quote]
  have h := json.readMembers_single
    ((json.quote k ++ ':' :: (json.quote v ++ '}' :: ['\n'])).length) k v ['\n']
  rw [hm]
  unfold json.readObject
  rw [json.skipWS_cons _ _ (by decide)]
  simp only []
  rw [if_pos trivial, List.length_cons]
  rw [hq] at h ⊢
  rw [json.skipWS_cons _ _ (by decide)]
  simp only []
  rw [if_neg (by decide), h]
  simp [json.skipWS]

/-! ### The responders -/

theorem Header.Get_Set (h : Header) (key value : GoString) :
    (h.Set key value).Get key = value := by
  simp [Header.Get, Header.Set, List.lookup]

/-- What has been sent of the status line and of the header fields. -/
theorem ResponseWriter.WriteHeader_fresh (w : ResponseWriter) (code : Nat)
    (hw : w.wroteHeader = false) :
    (w.WriteHeader code).wroteHeader = true ∧ (w.WriteHeader code).status = code ∧
    (w.WriteHeader code).sentHeader = w.header := by
  simp [ResponseWriter.WriteHeader, ResponseWriter.commit, hw]

theorem ResponseWriter.WriteHeader_sent (w : ResponseWriter) (code : Nat)
    (hw : w.wroteHeader = true) :
    (w.WriteHeader code).wroteHeader = true ∧ (w.WriteHeader code).status = w.status ∧
    (w.WriteHeader code).sentHeader = w.sentHeader := by
  simp [ResponseWriter.WriteHeader, ResponseWriter.commit, hw]

theorem ResponseWriter.Write_sent (w : ResponseWriter) (data : GoString)
    (hw : w.wroteHeader = true) :
    (w.Write data).1.wroteHeader = true ∧ (w.Write data).1.status = w.status ∧
    (w.Write data).1.sentHeader = w.sentHeader := by
  unfold ResponseWriter.Write
  simp only [ResponseWriter.commit, hw, if_true]
  split <;> simp [hw]

theorem UnauthorizedResponse_status (m : AuthMiddleware) (w : ResponseWriter)
    (message : GoString) (hw : w.wroteHeader = false) :
    (m.UnauthorizedResponse w message).wroteHeader = true ∧
    (m.UnauthorizedResponse w message).status = 401 ∧
    (m.UnauthorizedResponse w message).sentHeader.Get "Content-Type".toList
      = "application/json".toList := by
  have h2 := ResponseWriter.WriteHeader_fresh
    (w.SetHeader "Content-Type".toList "application/json".toList) 401 hw
  have h3 := ResponseWriter.Write_sent _
    (json.Marshal [("error".toList, message)] ++ ['\n']) h2.1
  have hset : (w.SetHeader "Content-Type".toList "application/json".toList).header.Get
      "Content-Type".toList = "application/json".toList := Header.Get_Set _ _ _
  unfold AuthMiddleware.UnauthorizedResponse json.Encode
  simp only []
  split
  · rename_i w3 heq
    have e3 : w3 = (ResponseWriter.Write _ _).1 := (congrArg Prod.fst heq).symm
    have h4 := ResponseWriter.WriteHeader_sent w3 500 (by rw [e3]; exact h3.1)
    have h5 := ResponseWriter.Write_sent _ encodeFailureBody h4.1
    refine ⟨h5.1, ?_, ?_⟩
    · rw [h5.2.1, h4.2.1, e3, h3.2.1, h2.2.1]
    · rw [h5.2.2, h4.2.2, e3, h3.2.2, h2.2.2]; exact hset
  · rename_i w3 heq
    have e3 : w3 = (ResponseWriter.Write _ _).1 := (congrArg Prod.fst heq).symm
    refine ⟨by rw [e3]; exact h3.1, ?_, ?_⟩
    · rw [e3, h3.2.1, h2.2.1]
    · rw [e3, h3.2.2, h2.2.2]; exact hset

theorem ResponseWriter.Write_ok (w : ResponseWriter) (data : GoString)
    (hok : w.nextWriteFails = false) :
    (w.Write data).2 = false ∧ (w.Write data).1.body = w.body ++ data ∧
    (w.Write data).1.log = w.log ++ [Event.write data] := by
  unfold ResponseWriter.Write ResponseWriter.commit
  rcases hf : w.faults with _ | ⟨_ | n, rest⟩
  · cases hw : w.wroteHeader <;> simp [hw, hf]
  · cases hw : w.wroteHeader <;> simp [hw, hf]
  · simp [ResponseWriter.nextWriteFails, hf] at hok

theorem UnauthorizedResponse_success (m : AuthMiddleware) (w : ResponseWriter)
    (message : GoString) (hok : w.nextWriteFails = false) :
    (m.UnauthorizedResponse w message).body
        = w.body ++ (json.Marshal [("error".toList, message)] ++ ['\n']) ∧
    (m.UnauthorizedResponse w message).log
        = w.log ++ [Event.setHeader "Content-Type".toList "application/json".toList,
            Event.writeHeader 401,
            Event.write (json.Marshal [("error".toList, message)] ++ ['\n'])] := by
  have hok2 : ((w.SetHeader "Content-Type".toList "application/json".toList).WriteHeader
      401).nextWriteFails = false := by
    rw [← hok]
    cases hw : w.wroteHeader <;>
      simp [ResponseWriter.nextWriteFails, ResponseWriter.WriteHeader, ResponseWriter.commit,
        ResponseWriter.SetHeader, hw]
  have h3 := ResponseWriter.Write_ok _ (json.Marshal [("error".toList, message)] ++ ['\n']) hok2
  have hb : ((w.SetHeader "Content-Type".toList "application/json".toList).WriteHeader
      401).body = w.body := by
    cases hw : w.wroteHeader <;>
      simp [ResponseWriter.WriteHeader, ResponseWriter.commit, ResponseWriter.SetHeader, hw]
  have hl : ((w.SetHeader "Content-Type".toList "application/json".toList).WriteHeader
      401).log = w.log ++ [Event.setHeader "Content-Type".toList "application/json".toList,
        Event.writeHeader 401] := by
    cases hw : w.wroteHeader <;>
      simp [ResponseWriter.WriteHeader, ResponseWriter.commit, ResponseWriter.SetHeader, hw]
  unfold AuthMiddleware.UnauthorizedResponse json.Encode
  simp only []
  split
  · rename_i w3 heq
    have e2 := congrArg Prod.snd heq
    simp only [] at e2
    rw [h3.1] at e2
    exact absurd e2 (by decide)
  · rename_i w3 heq
    have e3 : w3 = (ResponseWriter.Write _ _).1 := (congrArg Prod.fst heq).symm
    rw [e3, h3.2.1, h3.2.2, hb, hl]
    simp

/-- What a rejection leaves behind: the invocation record untouched, status 401 on a
writer that had sent nothing, and, when the write goes through, a body that reads as the
object whose only member is `error` with the message. -/
theorem reject_spec (m : AuthMiddleware) (e : Exchange) (message : GoString) :
    (m.reject e message).served = e.served ∧
    (m.reject e message).w = m.UnauthorizedResponse e.w message ∧
    (e.w.wroteHeader = false → (m.reject e message).w.status = 401) ∧
    (e.w.nextWriteFails = false →
      ∃ bytes, (m.reject e message).w.body = e.w.body ++ bytes ∧
        json.readObject bytes = some [("error".toList, message)]) :=
  ⟨rfl, rfl, fun hw => (UnauthorizedResponse_status m e.w _ hw).2.1,
   fun hok => ⟨_, (UnauthorizedResponse_success m e.w _ hok).1,
     json.readObject_Marshal_single _ _⟩⟩

theorem reject_served_ne (m : AuthMiddleware) (e : Exchange) (r : Request) (message : GoString) :
    (m.reject e message).served ≠ e.served ++ [r] := by
  intro h
  have h2 := congrArg List.length h
  simp [AuthMiddleware.reject] at h2

/-! ### The static-key gate -/

theorem APIKeyAuth_of_key (m : AuthMiddleware) (next : Handler) (e : Exchange) (r : Request)
    (k : GoString) (hk : k ≠ [])
    (hp : r.Header.Get "X-API-Key".toList = k ∨
      (r.Header.Get "X-API-Key".toList = [] ∧ r.Query.Get "api_key".toList = k)) :
    m.APIKeyAuth next e r =
      if strings.HasPrefix k m.apiKeyPrefix then next e r
      else m.reject e "Invalid API key format".toList := by
  unfold AuthMiddleware.APIKeyAuth
  rcases hp with hp | ⟨hp1, hp2⟩
  · simp only [hp, if_neg hk]
    cases strings.HasPrefix k m.apiKeyPrefix <;> simp
  · simp only [hp1, hp2, if_neg hk, if_true]
    cases strings.HasPrefix k m.apiKeyPrefix <;> simp

/-- C1. For a request whose presented key `k` (the `X-API-Key` header, or the `api_key`
query parameter when the header is empty) is not empty, `APIKeyAuth` enters the protected
handler if and only if the configured prefix is a prefix of `k`, and then it is the
protected handler alone that runs; otherwise the protected handler is not entered and the
gate answers with `UnauthorizedResponse` and the message `Invalid API key format`: status
401 on a writer that had sent nothing, and, when the write goes through, a body that reads
as the JSON object whose only member is `error` with that message. -/
theorem APIKeyAuth_accepts_iff_prefix (m : AuthMiddleware)
    (inner : ResponseWriter → Request → ResponseWriter) (e : Exchange) (r : Request)
    (k : GoString) (hk : k ≠ [])
    (hp : r.Header.Get "X-API-Key".toList = k ∨
      (r.Header.Get "X-API-Key".toList = [] ∧ r.Query.Get "api_key".toList = k)) :
    ((m.APIKeyAuth (observed inner) e r).served = e.served ++ [r] ↔ m.apiKeyPrefix <+: k) ∧
    (m.apiKeyPrefix <+: k → m.APIKeyAuth (observed inner) e r = observed inner e r) ∧
    (¬ m.apiKeyPrefix <+: k →
      m.APIKeyAuth (observed inner) e r = m.reject e "Invalid API key format".toList ∧
      (m.APIKeyAuth (observed inner) e r).served = e.served ∧
      (e.w.wroteHeader = false → (m.APIKeyAuth (observed inner) e r).w.status = 401) ∧
      (e.w.nextWriteFails = false →
        ∃ bytes, (m.APIKeyAuth (observed inner) e r).w.body = e.w.body ++ bytes ∧
          json.readObject bytes
            = some [("error".toList, "Invalid API key format".toList)])) := by
  rw [APIKeyAuth_of_key m _ e r k hk hp]
  by_cases hpre : m.apiKeyPrefix <+: k
  · have hb := (strings.HasPrefix_iff k m.apiKeyPrefix).mpr hpre
    simp [hb, hpre, observed]
  · have hb : strings.HasPrefix k m.apiKeyPrefix = false := by
      cases h : strings.HasPrefix k m.apiKeyPrefix
      · rfl
      · exact absurd ((strings.HasPrefix_iff k m.apiKeyPrefix).mp h) hpre
    simp only [hb, Bool.false_eq_true, if_false]
    have hs := reject_spec m e "Invalid API key format".toList
    exact ⟨⟨fun h => absurd h (reject_served_ne m e r _), fun h => absurd h hpre⟩,
      fun h => absurd h hpre, fun _ => ⟨trivial, hs.1, hs.2.2.1, hs.2.2.2⟩⟩

/-- C7. The key that `APIKeyAuth` validates is the `X-API-Key` header when it is not
empty, whatever the query holds; the `api_key` query parameter is validated only when the
header is empty; and when both are empty the gate answers `API key required` through
`UnauthorizedResponse` (status 401 on a writer that had sent nothing, a body that reads as
the object with the single member `error`) without entering the next handler. -/
theorem APIKeyAuth_key_source (m : AuthMiddleware) (next : Handler) (e : Exchange)
    (r : Request) :
    (r.Header.Get "X-API-Key".toList ≠ [] →
      m.APIKeyAuth next e r =
        if strings.HasPrefix (r.Header.Get "X-API-Key".toList) m.apiKeyPrefix then next e r
        else m.reject e "Invalid API key format".toList) ∧
    (r.Header.Get "X-API-Key".toList = [] → r.Query.Get "api_key".toList ≠ [] →
      m.APIKeyAuth next e r =
        if strings.HasPrefix (r.Query.Get "api_key".toList) m.apiKeyPrefix then next e r
        else m.reject e "Invalid API key format".toList) ∧
    (r.Header.Get "X-API-Key".toList = [] → r.Query.Get "api_key".toList = [] →
      m.APIKeyAuth next e r = m.reject e "API key required".toList ∧
      (m.APIKeyAuth next e r).served = e.served ∧
      (e.w.wroteHeader = false → (m.APIKeyAuth next e r).w.status = 401) ∧
      (e.w.nextWriteFails = false →
        ∃ bytes, (m.APIKeyAuth next e r).w.body = e.w.body ++ bytes ∧
          json.readObject bytes = some [("error".toList, "API key required".toList)])) := by
  refine ⟨fun h => APIKeyAuth_of_key m next e r _ h (Or.inl rfl),
    fun h1 h2 => APIKeyAuth_of_key m next e r _ h2 (Or.inr ⟨h1, rfl⟩), fun h1 h2 => ?_⟩
  have hr : m.APIKeyAuth next e r = m.reject e "API key required".toList := by
    unfold AuthMiddleware.APIKeyAuth
    simp only [h1, h2, if_true]
  rw [hr]
  have hs := reject_spec m e "API key required".toList
  exact ⟨rfl, hs.1, hs.2.2.1, hs.2.2.2⟩

/-! ### The token library -/

/-- The parser returns no error only together with a token that it has marked valid. -/
theorem jwt.ParseWithClaims_ok (J : jwt.Codec) (now : jwt.Time) (tok : GoString)
    (keyFunc : jwt.Token → Option GoString) (t : Option jwt.Token)
    (h : jwt.ParseWithClaims J now tok keyFunc = (t, none)) :
    ∃ token, t = some token ∧ token.Valid = true := by
  unfold jwt.ParseWithClaims at h
  split at h
  · split at h
    · simp at h
    · simp only [] at h
      split_ifs at h
      · simp only [Prod.mk.injEq, and_true] at h
        exact ⟨_, h.symm, rfl⟩
      · simp at h
  · simp at h
  · simp at h

/-! ### The bearer-token gate -/

theorem JWTAuth_no_header (m : AuthMiddleware) (J : jwt.Codec) (now : jwt.Time)
    (next : Handler) (e : Exchange) (r : Request)
    (h : r.Header.Get "Authorization".toList = []) :
    m.JWTAuth J now next e r = m.reject e "Authorization header required".toList := by
  unfold AuthMiddleware.JWTAuth
  simp only [h, if_true]

theorem JWTAuth_bad_scheme (m : AuthMiddleware) (J : jwt.Codec) (now : jwt.Time)
    (next : Handler) (e : Exchange) (r : Request)
    (h : r.Header.Get "Authorization".toList ≠ [])
    (hb : ¬ "Bearer ".toList <+: r.Header.Get "Authorization".toList) :
    m.JWTAuth J now next e r = m.reject e "Invalid authorization format".toList := by
  unfold AuthMiddleware.JWTAuth
  simp only [if_neg h]
  split
  · rename_i scheme tok hsplit
    split
    · rename_i hscheme
      exfalso
      apply hb
      have := strings.SplitN_two _ _ _ hsplit
      rw [this, hscheme]
      exact ⟨tok, by simp⟩
    · rfl
  · rfl

theorem JWTAuth_bearer (m : AuthMiddleware) (J : jwt.Codec) (now : jwt.Time)
    (next : Handler) (e : Exchange) (r : Request) (tok : GoString)
    (h : r.Header.Get "Authorization".toList = "Bearer ".toList ++ tok) :
    m.JWTAuth J now next e r =
      match jwt.ParseWithClaims J now tok m.keyFunc with
      | (some _, none) => next e r
      | _ => m.reject e "Invalid token".toList := by
  unfold AuthMiddleware.JWTAuth
  have hne : "Bearer ".toList ++ tok ≠ [] := by simp
  simp only [h, if_neg hne, strings.SplitN_bearer, if_true]
  rcases hp : jwt.ParseWithClaims J now tok m.keyFunc with ⟨t, err⟩
  cases err with
  | some v => simp
  | none =>
    obtain ⟨token, rfl, hv⟩ := jwt.ParseWithClaims_ok J now tok m.keyFunc t hp
    simp [hv, Request.WithContext, Request.Context]

/-- The outcome of the bearer-token gate: the next handler on the untouched exchange, or a
rejection with one of three messages. -/
theorem JWTAuth_outcome (m : AuthMiddleware) (J : jwt.Codec) (now : jwt.Time)
    (next : Handler) (e : Exchange) (r : Request) :
    m.JWTAuth J now next e r = next e r ∨
    m.JWTAuth J now next e r = m.reject e "Authorization header required".toList ∨
    m.JWTAuth J now next e r = m.reject e "Invalid authorization format".toList ∨
    m.JWTAuth J now next e r = m.reject e "Invalid token".toList := by
  by_cases h : r.Header.Get "Authorization".toList = []
  · exact Or.inr (Or.inl (JWTAuth_no_header m J now next e r h))
  · by_cases hb : "Bearer ".toList <+: r.Header.Get "Authorization".toList
    · obtain ⟨tok, htok⟩ := hb
      rw [JWTAuth_bearer m J now next e r tok htok.symm]
      split
      · exact Or.inl rfl
      · exact Or.inr (Or.inr (Or.inr rfl))
    · exact Or.inr (Or.inr (Or.inl (JWTAuth_bad_scheme m J now next e r h hb)))

/-- C2. `JWTAuth` hands a token to the verifier exactly when the `Authorization` header
is `Bearer ` followed by that token, the token being everything after the prefix: then
the verdict of `jwt.ParseWithClaims` on it decides between the next handler and the
rejection `Invalid token`. An absent or empty header is rejected with `Authorization
header required`, any other header that does not begin with `Bearer ` with `Invalid
authorization format`; in both cases the verdict of the parser plays no part, the next
handler is not entered, the status is 401 on a writer that had sent nothing and the body,
when the write goes through, reads as the object with the single member `error`. -/
theorem JWTAuth_bearer_gate (m : AuthMiddleware) (J : jwt.Codec) (now : jwt.Time)
    (inner : ResponseWriter → Request → ResponseWriter) (e : Exchange) (r : Request) :
    (∀ tok, r.Header.Get "Authorization".toList = "Bearer ".toList ++ tok →
      m.JWTAuth J now (observed inner) e r =
        match jwt.ParseWithClaims J now tok m.keyFunc with
        | (some _, none) => observed inner e r
        | _ => m.reject e "Invalid token".toList) ∧
    (r.Header.Get "Authorization".toList = [] →
      m.JWTAuth J now (observed inner) e r
        = m.reject e "Authorization header required".toList) ∧
    (r.Header.Get "Authorization".toList ≠ [] →
      ¬ "Bearer ".toList <+: r.Header.Get "Authorization".toList →
      m.JWTAuth J now (observed inner) e r
        = m.reject e "Invalid authorization format".toList) ∧
    (¬ "Bearer ".toList <+: r.Header.Get "Authorization".toList →
      (m.JWTAuth J now (observed inner) e r).served = e.served ∧
      (e.w.wroteHeader = false → (m.JWTAuth J now (observed inner) e r).w.status = 401) ∧
      (e.w.nextWriteFails = false →
        ∃ bytes message, (m.JWTAuth J now (observed inner) e r).w.body = e.w.body ++ bytes ∧
          json.readObject bytes = some [("error".toList, message)])) := by
  refine ⟨fun tok h => JWTAuth_bearer m J now _ e r tok h,
    fun h => JWTAuth_no_header m J now _ e r h,
    fun h hb => JWTAuth_bad_scheme m J now _ e r h hb, fun hb => ?_⟩
  have key : ∃ message, m.JWTAuth J now (observed inner) e r = m.reject e message := by
    by_cases h : r.Header.Get "Authorization".toList = []
    · exact ⟨_, JWTAuth_no_header m J now _ e r h⟩
    · exact ⟨_, JWTAuth_bad_scheme m J now _ e r h hb⟩
  obtain ⟨message, hm⟩ := key
  rw [hm]
  have hs := reject_spec m e message
  refine ⟨hs.1, hs.2.2.1, fun hok => ?_⟩
  obtain ⟨bytes, h1, h2⟩ := hs.2.2.2 hok
  exact ⟨bytes, message, h1, h2⟩

theorem reject_Guards (m : AuthMiddleware)
    (inner : ResponseWriter → Request → ResponseWriter) (e : Exchange) (r : Request)
    (message : GoString) : m.Guards inner e r (m.reject e message) :=
  Or.inr ⟨message, rfl, rfl,
    fun hw => ⟨(UnauthorizedResponse_status m e.w _ hw).1,
      (UnauthorizedResponse_status m e.w _ hw).2.1⟩,
    fun hok => (UnauthorizedResponse_success m e.w _ hok).2⟩

/-- C8. Each gate keeps the protected handler behind its validation (`Guards`): on every
request, `JWTAuth` and `APIKeyAuth` either run the protected handler exactly once and
write nothing of their own, or answer once with the 401 rejection and do not enter the
handler. -/
theorem gates_guard_handler (m : AuthMiddleware) (J : jwt.Codec) (now : jwt.Time)
    (inner : ResponseWriter → Request → ResponseWriter) (e : Exchange) (r : Request) :
    m.Guards inner e r (m.JWTAuth J now (observed inner) e r) ∧
    m.Guards inner e r (m.APIKeyAuth (observed inner) e r) := by
  constructor
  · rcases JWTAuth_outcome m J now (observed inner) e r with h | h | h | h <;> rw [h]
    · exact Or.inl ⟨rfl, rfl⟩
    · exact reject_Guards m inner e r _
    · exact reject_Guards m inner e r _
    · exact reject_Guards m inner e r _
  · unfold AuthMiddleware.APIKeyAuth
    simp only []
    split_ifs
    · exact reject_Guards m inner e r _
    · exact reject_Guards m inner e r _
    · exact Or.inl ⟨rfl, rfl⟩
    · exact reject_Guards m inner e r _
    · exact Or.inl ⟨rfl, rfl⟩

/-! ### Algorithms -/

theorem jwt.GetSigningMethod_alg (a : GoString) (sm : jwt.SigningMethod)
    (h : jwt.GetSigningMethod a = some sm) : sm.Alg = a := by
  unfold jwt.GetSigningMethod at h
  have := List.find?_some h
  simpa using this

theorem jwt.Alg_HMAC_inj (sm : jwt.SigningMethod) (h : jwt.Hash)
    (heq : sm.Alg = (jwt.SigningMethod.HMAC h).Alg) : sm = jwt.SigningMethod.HMAC h := by
  cases sm <;> cases h <;> first | rfl | (rename_i h2; cases h2 <;> first | rfl | (exact absurd heq (by decide))) | (exact absurd heq (by decide))

/-- The key function refuses every method that is not of the HMAC type. -/
theorem keyFunc_refuses (m : AuthMiddleware) (t : jwt.Token) (sm : jwt.SigningMethod)
    (ht : t.Method = some sm) (hsm : ∀ h, sm ≠ jwt.SigningMethod.HMAC h) :
    m.keyFunc t = none := by
  unfold AuthMiddleware.keyFunc
  rw [ht]
  cases sm with
  | HMAC h => exact absurd rfl (hsm h)
  | _ => rfl

/-- A token that parses has a declared algorithm, which names the method of the token. -/
theorem jwt.ParseUnverified_ok (J : jwt.Codec) (tok : GoString) (t : jwt.Token)
    (parts : List GoString) (h : jwt.ParseUnverified J tok = (some t, parts, none)) :
    ∃ a sm, jwt.declaredAlg J tok = some a ∧ jwt.GetSigningMethod a = some sm ∧
      t.Method = some sm := by
  unfold jwt.ParseUnverified at h
  unfold jwt.declaredAlg
  simp only [] at h
  split at h
  · rename_i p0 p1 p2 hsplit
    split at h
    · simp at h
    · rename_i hdr hhdr
      rw [hhdr]
      split at h
      · simp at h
      · split at h
        · rename_i method hmethod
          split at h
          · rename_i sm hsm
            simp only [Prod.mk.injEq, Option.some.injEq, and_true] at h
            refine ⟨method, sm, by simpa using hmethod, hsm, ?_⟩
            rw [← h.1]
          · simp at h
        · simp at h
  · simp at h

/-- A token that the parser accepts with the key function of the gate declares an HMAC
algorithm. -/
theorem jwt.ParseWithClaims_accepts_HMAC (J : jwt.Codec) (m : AuthMiddleware)
    (now : jwt.Time) (tok : GoString) (t : jwt.Token)
    (h : jwt.ParseWithClaims J now tok m.keyFunc = (some t, none)) :
    ∃ hash, jwt.declaredAlg J tok = some (jwt.SigningMethod.HMAC hash).Alg := by
  unfold jwt.ParseWithClaims at h
  split at h
  · rename_i token p0 p1 p2 hparse
    obtain ⟨a, sm, ha, hg, hm⟩ := jwt.ParseUnverified_ok J tok token _ hparse
    split at h
    · simp at h
    · rename_i key hkey
      cases sm with
      | HMAC hash =>
        refine ⟨hash, ?_⟩
        rw [ha, ← jwt.GetSigningMethod_alg a _ hg]
      | _ =>
        rw [keyFunc_refuses m token _ hm (by intro hh; exact fun hc => by cases hc)] at hkey
        cases hkey
  · simp at h
  · simp at h

/-- C3, as amended. A bearer token whose header declares no algorithm of the HMAC family
(anything other than `HS256`, `HS384` and `HS512`: `none`, the asymmetric algorithms, an
unknown name, a missing or undecodable `alg`) is rejected by `JWTAuth` with `Invalid
token`: the protected handler is not entered and the status is 401 on a writer that had
sent nothing. -/
theorem JWTAuth_rejects_outside_HMAC (m : AuthMiddleware) (J : jwt.Codec) (now : jwt.Time)
    (inner : ResponseWriter → Request → ResponseWriter) (e : Exchange) (r : Request)
    (tok : GoString)
    (hreq : r.Header.Get "Authorization".toList = "Bearer ".toList ++ tok)
    (halg : ∀ h, jwt.declaredAlg J tok ≠ some (jwt.SigningMethod.HMAC h).Alg) :
    m.JWTAuth J now (observed inner) e r = m.reject e "Invalid token".toList ∧
    (m.JWTAuth J now (observed inner) e r).served = e.served ∧
    (e.w.wroteHeader = false → (m.JWTAuth J now (observed inner) e r).w.status = 401) := by
  have hr : m.JWTAuth J now (observed inner) e r = m.reject e "Invalid token".toList := by
    rw [JWTAuth_bearer m J now _ e r tok hreq]
    split
    · rename_i t heq
      obtain ⟨hash, hh⟩ := jwt.ParseWithClaims_accepts_HMAC J m now tok t heq
      exact absurd hh (halg hash)
    · rfl
  rw [hr]
  have hs := reject_spec m e "Invalid token".toList
  exact ⟨rfl, hs.1, hs.2.2.1⟩

/-- C4. When the header of a bearer token declares a registered method that is not of
the HMAC type (`none`, RSA, RSA-PSS, ECDSA, EdDSA), the key function of `JWTAuth` returns
an error for the parsed token in place of the secret, and `JWTAuth` rejects with `Invalid
token`, whatever the other two segments hold: the protected handler is not entered and the
status is 401 on a writer that had sent nothing. -/
theorem JWTAuth_rejects_none_and_asymmetric (m : AuthMiddleware) (J : jwt.Codec)
    (now : jwt.Time) (inner : ResponseWriter → Request → ResponseWriter) (e : Exchange)
    (r : Request) (tok : GoString) (sm : jwt.SigningMethod)
    (hsm : ∀ h, sm ≠ jwt.SigningMethod.HMAC h)
    (halg : jwt.declaredAlg J tok = some sm.Alg)
    (hreq : r.Header.Get "Authorization".toList = "Bearer ".toList ++ tok) :
    (∀ t : jwt.Token, t.Method = some sm → m.keyFunc t = none) ∧
    m.JWTAuth J now (observed inner) e r = m.reject e "Invalid token".toList ∧
    (m.JWTAuth J now (observed inner) e r).served = e.served ∧
    (e.w.wroteHeader = false → (m.JWTAuth J now (observed inner) e r).w.status = 401) := by
  refine ⟨fun t ht => keyFunc_refuses m t sm ht hsm, ?_⟩
  have hr : m.JWTAuth J now (observed inner) e r = m.reject e "Invalid token".toList := by
    rw [JWTAuth_bearer m J now _ e r tok hreq]
    split
    · rename_i t heq
      obtain ⟨hash, hh⟩ := jwt.ParseWithClaims_accepts_HMAC J m now tok t heq
      rw [halg] at hh
      exact absurd (jwt.Alg_HMAC_inj sm hash (Option.some.inj hh)) (hsm hash)
    · rfl
  rw [hr]
  have hs := reject_spec m e "Invalid token".toList
  exact ⟨rfl, hs.1, hs.2.2.1⟩

/-- C3, the claim as stated fails: a token whose header declares `HS384` and whose
signature is the MAC for that algorithm under the shared secret is accepted, the
protected handler runs and answers 200. -/
theorem HS384_token_is_accepted :
    jwt.declaredAlg wire.codec (Example.tokenWith "HS384" jwt.Hash.SHA384)
      = some "HS384".toList ∧
    (Example.middleware.JWTAuth wire.codec Example.now (observed Example.inner)
        (Example.start []) (Example.bearer (Example.tokenWith "HS384" jwt.Hash.SHA384))).served
      = [Example.bearer (Example.tokenWith "HS384" jwt.Hash.SHA384)] ∧
    (Example.middleware.JWTAuth wire.codec Example.now (observed Example.inner)
        (Example.start []) (Example.bearer (Example.tokenWith "HS384" jwt.Hash.SHA384))).w.status
      = 200 := by
  decide

/-- An unsecured token (`alg: none`) is rejected. -/
theorem JWTAuth_rejects_outside_HMAC_witness :
    Example.middleware.JWTAuth wire.codec Example.now (observed Example.inner)
        (Example.start []) (Example.bearer (Example.tokenWith "none" jwt.Hash.SHA256))
      = Example.middleware.reject (Example.start []) "Invalid token".toList ∧
    (Example.middleware.JWTAuth wire.codec Example.now (observed Example.inner)
        (Example.start []) (Example.bearer (Example.tokenWith "none" jwt.Hash.SHA256))).served
      = [] ∧
    (Example.middleware.JWTAuth wire.codec Example.now (observed Example.inner)
        (Example.start []) (Example.bearer (Example.tokenWith "none" jwt.Hash.SHA256))).w.status
      = 401 :=
  have h := JWTAuth_rejects_outside_HMAC Example.middleware wire.codec Example.now
    Example.inner (Example.start []) (Example.bearer (Example.tokenWith "none" jwt.Hash.SHA256))
    (Example.tokenWith "none" jwt.Hash.SHA256) (by decide)
    (fun h => by cases h <;> decide)
  ⟨h.1, h.2.1, h.2.2 rfl⟩

/-- A token that declares `RS256` is rejected, even though its signature segment is a MAC
under the shared secret. -/
theorem JWTAuth_rejects_none_and_asymmetric_witness :
    Example.middleware.JWTAuth wire.codec Example.now (observed Example.inner)
        (Example.start []) (Example.bearer (Example.tokenWith "RS256" jwt.Hash.SHA256))
      = Example.middleware.reject (Example.start []) "Invalid token".toList ∧
    (Example.middleware.JWTAuth wire.codec Example.now (observed Example.inner)
        (Example.start []) (Example.bearer (Example.tokenWith "RS256" jwt.Hash.SHA256))).w.status
      = 401 :=
  have h := JWTAuth_rejects_none_and_asymmetric Example.middleware wire.codec Example.now
    Example.inner (Example.start []) (Example.bearer (Example.tokenWith "RS256" jwt.Hash.SHA256))
    (Example.tokenWith "RS256" jwt.Hash.SHA256) (jwt.SigningMethod.RSA jwt.Hash.SHA256)
    (fun h => by cases h <;> decide) (by decide) (by decide)
  ⟨h.2.1, h.2.2.2 rfl⟩

/-- With the prefix `API_`, the key `API_abc123` is accepted and the key `abc123` is
rejected with status 401, the protected handler not being entered. -/
theorem APIKeyAuth_accepts_iff_prefix_witness :
    Example.middleware.APIKeyAuth (observed Example.inner) (Example.start [])
        (Example.withHeader "X-Api-Key" "API_abc123")
      = observed Example.inner (Example.start []) (Example.withHeader "X-Api-Key" "API_abc123") ∧
    (Example.middleware.APIKeyAuth (observed Example.inner) (Example.start [])
        (Example.withQuery "api_key" "abc123")).served = [] ∧
    (Example.middleware.APIKeyAuth (observed Example.inner) (Example.start [])
        (Example.withQuery "api_key" "abc123")).w.status = 401 :=
  have h1 := APIKeyAuth_accepts_iff_prefix Example.middleware Example.inner (Example.start [])
    (Example.withHeader "X-Api-Key" "API_abc123") "API_abc123".toList (by decide)
    (Or.inl (by decide))
  have h2 := APIKeyAuth_accepts_iff_prefix Example.middleware Example.inner (Example.start [])
    (Example.withQuery "api_key" "abc123") "abc123".toList (by decide)
    (Or.inr ⟨by decide, by decide⟩)
  ⟨h1.2.1 (by decide), (h2.2.2 (by decide)).2.1, (h2.2.2 (by decide)).2.2.1 rfl⟩

/-! ### The rejection body -/

/-- C10, what the code does when the encoder's write fails on a writer that had sent
nothing. The status 401 (or the status given to `ErrorResponse`, here 400) has been sent
before the encoder runs, so the later `WriteHeader(500)` changes nothing: the status of
the response is not 500. When the failed write had let nine bytes through, they precede
the literal in the body. -/
theorem encode_failure_keeps_first_status :
    (Example.middleware.UnauthorizedResponse (ResponseWriter.fresh [some 0])
        "Invalid token".toList).status = 401 ∧
    (Example.middleware.UnauthorizedResponse (ResponseWriter.fresh [some 0])
        "Invalid token".toList).body = encodeFailureBody ∧
    (Example.middleware.UnauthorizedResponse (ResponseWriter.fresh [some 0])
        "Invalid token".toList).log =
      [Event.setHeader "Content-Type".toList "application/json".toList,
       Event.writeHeader 401,
       Event.write "\x7b\"error\":\"Invalid token\"\x7d\n".toList,
       Event.writeHeader 500,
       Event.write encodeFailureBody] ∧
    (Example.middleware.ErrorResponse (ResponseWriter.fresh [some 0]) 400
        "Bad request".toList).status = 400 ∧
    (Example.middleware.ErrorResponse (ResponseWriter.fresh [some 0]) 400
        "Bad request".toList).body = encodeFailureBody ∧
    (Example.middleware.UnauthorizedResponse (ResponseWriter.fresh [some 9])
        "Invalid token".toList).body = "\x7b\"error\":".toList ++ encodeFailureBody := by
  decide

/-! ### Issuing -/

/-- C5, what the code does when the clock moves between its three reads. `GenerateJWT`
reads `time.Now()` once for each of `ExpiresAt`, `IssuedAt` and `NotBefore`; with reads
that straddle a second, `not_before` is later than `issued_at`, and `expires_at` is not
`issued_at` plus 24 hours. -/
theorem issuedClaims_clock_reads :
    (Example.middleware.issuedClaims 1999999998 1999999999 2000000000 42
        "alice".toList).Registered.IssuedAt = some 1000000000 ∧
    (Example.middleware.issuedClaims 1999999998 1999999999 2000000000 42
        "alice".toList).Registered.NotBefore = some 2000000000 ∧
    (Example.middleware.issuedClaims 999999999 1000000000 1000000001 42
        "alice".toList).Registered.IssuedAt = some 1000000000 ∧
    (Example.middleware.issuedClaims 999999999 1000000000 1000000001 42
        "alice".toList).Registered.ExpiresAt = some (0 + 24 * jwt.Hour) := by
  decide

theorem strings.splitLoop_no_sep (n : Nat) (c : Char) (s : GoString) (h : c ∉ s) :
    strings.splitLoop n s [c] = [s] := by
  cases n with
  | zero => rfl
  | succ k => rw [strings.splitLoop, strings.Index_char_none c s h]

theorem strings.splitLoop_cut (n : Nat) (c : Char) (a rest : GoString) (h : c ∉ a) :
    strings.splitLoop (n + 1) (a ++ c :: rest) [c] = a :: strings.splitLoop n rest [c] := by
  rw [strings.splitLoop, strings.Index_char_append c a rest h]
  simp

/-- Three dot-free segments joined by dots split into those segments. -/
theorem strings.Split_three (a b c : GoString) (ha : '.' ∉ a) (hb : '.' ∉ b)
    (hc : '.' ∉ c) :
    strings.Split (a ++ '.' :: (b ++ '.' :: c)) ['.'] = [a, b, c] := by
  unfold strings.Split strings.SplitN
  rw [if_neg (by decide), if_pos (by decide)]
  have hlen : (a ++ '.' :: (b ++ '.' :: c)).length = (a.length + b.length + c.length) + 2 := by
    simp
    omega
  rw [hlen, strings.splitLoop_cut _ _ _ _ ha, strings.splitLoop_cut _ _ _ _ hb,
    strings.splitLoop_no_sep _ _ _ hc]

/-- The claims that `GenerateJWT` builds from one instant are valid at that instant. -/
theorem issuedClaims_valid (m : AuthMiddleware) (now : jwt.Time) (userID : Int)
    (username : GoString) :
    (m.issuedClaims now now now userID username).Registered.Valid now = [] := by
  have k1 : ∀ n : Nat, n < (n + 24 * (3600 * 1000000000)) / 1000000000 * 1000000000 := by
    intro n; omega
  have k2 : ∀ n : Nat, n / 1000000000 * 1000000000 ≤ n := by
    intro n; omega
  have h1 : now < jwt.NewNumericDate (now + 24 * jwt.Hour) := k1 now
  have h2 : jwt.NewNumericDate now ≤ now := k2 now
  simp [AuthMiddleware.issuedClaims, jwt.RegisteredClaims.Valid, h1, h2]

/-- The parser accepts what `SignedString` writes with HS256, when the primitives
round-trip on it and the claims are valid at the instant of the check. -/
theorem jwt.ParseWithClaims_SignedString (J : jwt.Codec) (m : AuthMiddleware)
    (now : jwt.Time) (claims : JWTClaims) (hJ : J.RoundTrips m.jwtSecret claims)
    (hv : claims.Registered.Valid now = []) :
    ∃ tok t, jwt.SignedString J (jwt.SigningMethod.HMAC jwt.Hash.SHA256) claims m.jwtSecret
        = some tok ∧
      jwt.ParseWithClaims J now tok m.keyFunc = (some t, none) ∧
      t.Valid = true ∧ t.Claims = claims := by
  obtain ⟨h1, h2, h3, h4, h5, h6⟩ := hJ
  have hsplit := strings.Split_three _ _ _ h4 h5 h6
  have hget : jwt.GetSigningMethod (jwt.SigningMethod.HMAC jwt.Hash.SHA256).Alg
      = some (jwt.SigningMethod.HMAC jwt.Hash.SHA256) := by decide
  have halg : jwt.hs256Header.alg = some (jwt.SigningMethod.HMAC jwt.Hash.SHA256).Alg := rfl
  have hform : ∀ (x y z : GoString),
      (x ++ '.' :: y) ++ '.' :: z = x ++ '.' :: (y ++ '.' :: z) := by
    intro x y z; simp
  refine ⟨(J.EncodeSegment (J.marshalHeader jwt.hs256Header) ++
      '.' :: J.EncodeSegment (J.marshalClaims claims)) ++
      '.' :: J.EncodeSegment (J.hmac jwt.Hash.SHA256 m.jwtSecret
        (J.EncodeSegment (J.marshalHeader jwt.hs256Header) ++
          '.' :: J.EncodeSegment (J.marshalClaims claims))),
    { Raw := (J.EncodeSegment (J.marshalHeader jwt.hs256Header) ++
        '.' :: J.EncodeSegment (J.marshalClaims claims)) ++
        '.' :: J.EncodeSegment (J.hmac jwt.Hash.SHA256 m.jwtSecret
          (J.EncodeSegment (J.marshalHeader jwt.hs256Header) ++
            '.' :: J.EncodeSegment (J.marshalClaims claims))),
      Method := some (jwt.SigningMethod.HMAC jwt.Hash.SHA256),
      Header := jwt.hs256Header, Claims := claims,
      Signature := J.EncodeSegment (J.hmac jwt.Hash.SHA256 m.jwtSecret
        (J.EncodeSegment (J.marshalHeader jwt.hs256Header) ++
          '.' :: J.EncodeSegment (J.marshalClaims claims))),
      Valid := true }, rfl, ?_, rfl, rfl⟩
  rw [hform] at *
  simp only [jwt.ParseWithClaims, jwt.ParseUnverified, hsplit, h1, h2, halg, hget,
    AuthMiddleware.keyFunc, hv, jwt.SigningMethod.Verify, h3, beq_self_eq_true, if_true,
    List.nil_append]

/-! ### Uniform rejection of bearer tokens -/

/-- C11. Two requests that present `Bearer <token>` headers whose tokens fail
verification, for whatever reason and at whatever instants, leave the same exchange in
the same state: `JWTAuth` answers both through `UnauthorizedResponse` with the one message
`Invalid token`, so the status is 401 on a writer that had sent nothing and the body,
when the write goes through, is the same for both. -/
theorem JWTAuth_rejection_is_uniform (m : AuthMiddleware) (J : jwt.Codec)
    (now1 now2 : jwt.Time) (inner : ResponseWriter → Request → ResponseWriter)
    (e : Exchange) (r1 r2 : Request) (tok1 tok2 : GoString)
    (h1 : r1.Header.Get "Authorization".toList = "Bearer ".toList ++ tok1)
    (h2 : r2.Header.Get "Authorization".toList = "Bearer ".toList ++ tok2)
    (f1 : (jwt.ParseWithClaims J now1 tok1 m.keyFunc).2 ≠ none)
    (f2 : (jwt.ParseWithClaims J now2 tok2 m.keyFunc).2 ≠ none) :
    m.JWTAuth J now1 (observed inner) e r1 = m.JWTAuth J now2 (observed inner) e r2 ∧
    m.JWTAuth J now1 (observed inner) e r1 = m.reject e "Invalid token".toList ∧
    (e.w.wroteHeader = false → (m.JWTAuth J now1 (observed inner) e r1).w.status = 401) ∧
    (e.w.nextWriteFails = false →
      (m.JWTAuth J now1 (observed inner) e r1).w.body = e.w.body ++
        (json.Marshal [("error".toList, "Invalid token".toList)] ++ ['\n'])) := by
  have key : ∀ (now : jwt.Time) (r : Request) (tok : GoString),
      r.Header.Get "Authorization".toList = "Bearer ".toList ++ tok →
      (jwt.ParseWithClaims J now tok m.keyFunc).2 ≠ none →
      m.JWTAuth J now (observed inner) e r = m.reject e "Invalid token".toList := by
    intro now r tok hr hf
    rw [JWTAuth_bearer m J now _ e r tok hr]
    split
    · rename_i heq
      rw [heq] at hf
      exact absurd rfl hf
    · rfl
  rw [key now1 r1 tok1 h1 f1, key now2 r2 tok2 h2 f2]
  exact ⟨rfl, rfl, fun hw => (UnauthorizedResponse_status m e.w _ hw).2.1,
    fun hok => (UnauthorizedResponse_success m e.w _ hok).1⟩

/-- An expired token and a token with a wrong signature: the library tells them apart,
the two responses are the same. -/
theorem JWTAuth_rejection_is_uniform_witness :
    (jwt.ParseWithClaims wire.codec (Example.now + 48 * jwt.Hour)
        (Example.tokenWith "HS256" jwt.Hash.SHA256) Example.middleware.keyFunc).2
      = some [jwt.ErrorFlag.Expired] ∧
    (jwt.ParseWithClaims wire.codec Example.now
        (Example.tokenWith "HS256" jwt.Hash.SHA384) Example.middleware.keyFunc).2
      = some [jwt.ErrorFlag.SignatureInvalid] ∧
    Example.middleware.JWTAuth wire.codec (Example.now + 48 * jwt.Hour)
        (observed Example.inner) (Example.start [])
        (Example.bearer (Example.tokenWith "HS256" jwt.Hash.SHA256))
      = Example.middleware.JWTAuth wire.codec Example.now (observed Example.inner)
        (Example.start []) (Example.bearer (Example.tokenWith "HS256" jwt.Hash.SHA384)) ∧
    (Example.middleware.JWTAuth wire.codec (Example.now + 48 * jwt.Hour)
        (observed Example.inner) (Example.start [])
        (Example.bearer (Example.tokenWith "HS256" jwt.Hash.SHA256))).w.status = 401 :=
  have h := JWTAuth_rejection_is_uniform Example.middleware wire.codec
    (Example.now + 48 * jwt.Hour) Example.now Example.inner (Example.start [])
    (Example.bearer (Example.tokenWith "HS256" jwt.Hash.SHA256))
    (Example.bearer (Example.tokenWith "HS256" jwt.Hash.SHA384))
    (Example.tokenWith "HS256" jwt.Hash.SHA256) (Example.tokenWith "HS256" jwt.Hash.SHA384)
    (by decide) (by decide) (by decide) (by decide)
  ⟨by decide, by decide, h.1, h.2.2.1 rfl⟩

/-! ### The cross-origin decorator -/

theorem List.lookup_filter_ne (k k1 : GoString) (l : List (GoString × List GoString))
    (h : k1 ≠ k) : (l.filter (fun e => e.1 != k)).lookup k1 = l.lookup k1 := by
  induction l with
  | nil => rfl
  | cons x t ih =>
    obtain ⟨a, b⟩ := x
    by_cases hak : a = k
    · subst hak
      have hne : (k1 == a) = false := by simpa using h
      simp [List.filter, List.lookup, hne, ih]
    · have hf : (a != k) = true := by simpa using hak
      simp only [List.filter, hf, List.lookup]
      rw [ih]

theorem Header.Get_Set_ne (h : Header) (key key1 value : GoString)
    (hne : CanonicalMIMEHeaderKey key1 ≠ CanonicalMIMEHeaderKey key) :
    (h.Set key value).Get key1 = h.Get key1 := by
  have hb : (CanonicalMIMEHeaderKey key1 == CanonicalMIMEHeaderKey key) = false := by
    simpa using hne
  simp only [Header.Get, Header.Set, List.lookup, hb]
  rw [List.lookup_filter_ne _ _ _ hne]

/-- The header map after the three calls of `CORS` holds the three permissive fields. -/
theorem Header.Permissive_of_sets (h : Header) :
    (((h.Set "Access-Control-Allow-Origin".toList "*".toList).Set
        "Access-Control-Allow-Methods".toList "GET, POST, PUT, DELETE, OPTIONS".toList).Set
        "Access-Control-Allow-Headers".toList
        "Content-Type, Authorization, X-API-Key".toList).Permissive := by
  refine ⟨?_, ?_, ?_⟩
  · rw [Header.Get_Set_ne _ _ _ _ (by decide), Header.Get_Set_ne _ _ _ _ (by decide),
      Header.Get_Set]
  · rw [Header.Get_Set_ne _ _ _ _ (by decide), Header.Get_Set]
  · rw [Header.Get_Set]

/-- C12. For every protected handler and every request, `CORS` sets the three permissive
fields in the header map of the writer. On an `OPTIONS` request it then writes status 200
and returns: the handler is not entered, no body byte is written, and on a writer that
had sent nothing the status sent is 200 with the three fields. On any other request it
runs the handler exactly once, on the writer with the three fields set and nothing else
changed. -/
theorem CORS_contract (m : AuthMiddleware)
    (inner : ResponseWriter → Request → ResponseWriter) (e : Exchange) (r : Request) :
    (r.Method = "OPTIONS".toList →
      (m.CORS (observed inner) e r).served = e.served ∧
      (m.CORS (observed inner) e r).w.body = e.w.body ∧
      (m.CORS (observed inner) e r).w.header.Permissive ∧
      (e.w.wroteHeader = false →
        (m.CORS (observed inner) e r).w.status = 200 ∧
        (m.CORS (observed inner) e r).w.sentHeader.Permissive)) ∧
    (r.Method ≠ "OPTIONS".toList →
      ∃ w3 : ResponseWriter, w3.header.Permissive ∧ w3.body = e.w.body ∧
        w3.wroteHeader = e.w.wroteHeader ∧ w3.status = e.w.status ∧
        w3.sentHeader = e.w.sentHeader ∧ w3.faults = e.w.faults ∧
        m.CORS (observed inner) e r = observed inner { e with w := w3 } r ∧
        (m.CORS (observed inner) e r).served = e.served ++ [r] ∧
        (m.CORS (observed inner) e r).w = inner w3 r) := by
  have hp := Header.Permissive_of_sets e.w.header
  constructor
  · intro hm
    have hr : m.CORS (observed inner) e r = { e with w :=
        (((e.w.SetHeader "Access-Control-Allow-Origin".toList "*".toList).SetHeader
          "Access-Control-Allow-Methods".toList
          "GET, POST, PUT, DELETE, OPTIONS".toList).SetHeader
          "Access-Control-Allow-Headers".toList
          "Content-Type, Authorization, X-API-Key".toList).WriteHeader 200 } := by
      unfold AuthMiddleware.CORS
      simp only [hm, if_true]
    rw [hr]
    refine ⟨rfl, ?_, ?_, fun hw => ?_⟩
    · cases hw : e.w.wroteHeader <;>
        simp [ResponseWriter.WriteHeader, ResponseWriter.commit, ResponseWriter.SetHeader, hw]
    · cases hw : e.w.wroteHeader
      · simpa [ResponseWriter.WriteHeader, ResponseWriter.commit, ResponseWriter.SetHeader,
          hw] using hp
      · simpa [ResponseWriter.WriteHeader, ResponseWriter.commit, ResponseWriter.SetHeader,
          hw] using hp
    · constructor
      · simp [ResponseWriter.WriteHeader, ResponseWriter.commit, ResponseWriter.SetHeader, hw]
      · simpa [ResponseWriter.WriteHeader, ResponseWriter.commit, ResponseWriter.SetHeader,
          hw] using hp
  · intro hm
    refine ⟨((e.w.SetHeader "Access-Control-Allow-Origin".toList "*".toList).SetHeader
          "Access-Control-Allow-Methods".toList
          "GET, POST, PUT, DELETE, OPTIONS".toList).SetHeader
          "Access-Control-Allow-Headers".toList
          "Content-Type, Authorization, X-API-Key".toList, hp, rfl, rfl, rfl, rfl, rfl, ?_⟩
    unfold AuthMiddleware.CORS
    simp only [if_neg hm]
    exact ⟨trivial, rfl, rfl⟩

/-! ### The router -/

/-- C13, what the router of `setupRouter` does with `OPTIONS` requests that carry no
credential. `CORS` is not installed in it: the request on `/api/v1/message` reaches the
static-key gate and is rejected with `API key required`, the request on
`/api/v1/resource` reaches the bearer-token gate and is rejected with `Authorization
header required`, both with status 401; the request on `/health` is served by the health
handler; and none of the three answers carries `Access-Control-Allow-Origin`. -/
theorem router_preflight_reaches_gates :
    Example.router.ServeHTTP (Example.start []) (Example.preflight "/api/v1/message")
      = Example.middleware.reject (Example.start []) "API key required".toList ∧
    (Example.router.ServeHTTP (Example.start [])
        (Example.preflight "/api/v1/message")).w.status = 401 ∧
    (Example.router.ServeHTTP (Example.start [])
        (Example.preflight "/api/v1/message")).w.sentHeader.Get
        "Access-Control-Allow-Origin".toList = [] ∧
    Example.router.ServeHTTP (Example.start []) (Example.preflight "/api/v1/resource")
      = Example.middleware.reject (Example.start []) "Authorization header required".toList ∧
    (Example.router.ServeHTTP (Example.start [])
        (Example.preflight "/api/v1/resource")).w.status = 401 ∧
    (Example.router.ServeHTTP (Example.start [])
        (Example.preflight "/api/v1/resource")).w.sentHeader.Get
        "Access-Control-Allow-Origin".toList = [] ∧
    (Example.router.ServeHTTP (Example.start []) (Example.preflight "/health")).served
      = [Example.preflight "/health"] ∧
    (Example.router.ServeHTTP (Example.start [])
        (Example.preflight "/health")).w.sentHeader.Get
        "Access-Control-Allow-Origin".toList = [] := by
  decide

/-! ### The forwarded request -/

/-- C14, what `JWTAuth` forwards when it accepts. The request that the protected handler
receives is the original request with its context as it was: for a request with an empty
context and a valid token of user 42, `alice`, neither `user_id` nor `username` can be
read from the context of the forwarded request. -/
theorem JWTAuth_forwards_context_unchanged :
    (Example.middleware.JWTAuth wire.codec Example.now (observed Example.inner)
        (Example.start []) (Example.bearer (Example.tokenWith "HS256" jwt.Hash.SHA256))).served
      = [Example.bearer (Example.tokenWith "HS256" jwt.Hash.SHA256)] ∧
    (Example.middleware.JWTAuth wire.codec Example.now (observed Example.inner)
        (Example.start [])
        (Example.bearer (Example.tokenWith "HS256" jwt.Hash.SHA256))).served.map
        (fun r => r.Context.lookup "user_id".toList) = [none] ∧
    (Example.middleware.JWTAuth wire.codec Example.now (observed Example.inner)
        (Example.start [])
        (Example.bearer (Example.tokenWith "HS256" jwt.Hash.SHA256))).served.map
        (fun r => r.Context.lookup "username".toList) = [none] ∧
    (jwt.ParseWithClaims wire.codec Example.now (Example.tokenWith "HS256" jwt.Hash.SHA256)
        Example.middleware.keyFunc).1.map (fun t => (t.Claims.UserID, t.Claims.Username))
      = some (42, "alice".toList) := by
  decide

/-! ### Truncation -/

/-- C15, what `TruncateString` returns for a string longer than `maxLen`: the first
`maxLen` bytes followed by three dots, which is three bytes more than `maxLen`. With
`maxLen = 3`, `abcdef` gives `abc...` (6 bytes) and `abcd` gives `abc...` as well, longer
than the string it was given. -/
theorem TruncateString_exceeds_maxLen :
    utils.TruncateString (wire.toBytes "abcdef".toList) 3
      = Result.value (wire.toBytes "abc...".toList) ∧
    (wire.toBytes "abc...".toList).length = 6 ∧
    utils.TruncateString (wire.toBytes "abcd".toList) 3
      = Result.value (wire.toBytes "abc...".toList) ∧
    (wire.toBytes "abcd".toList).length = 4 ∧
    utils.TruncateString (wire.toBytes "abc".toList) 3
      = Result.value (wire.toBytes "abc".toList) := by
  decide

/-! ### Random strings -/

theorem wire.b64Char_mem (n : Nat) : wire.b64Char n ∈ base64.encodeURL := by
  by_cases h : n < 64
  · interval_cases n <;> decide
  · have h1 : ¬ n < 26 := by omega
    have h2 : ¬ n < 52 := by omega
    have h3 : ¬ n < 62 := by omega
    have h4 : n ≠ 62 := by omega
    unfold wire.b64Char
    rw [if_neg h1, if_neg h2, if_neg h3, if_neg h4]
    decide

theorem wire.encodeTriples_mem (l : List Nat) :
    ∀ c ∈ wire.encodeTriples l, c ∈ base64.encodeURL := by
  induction l using wire.encodeTriples.induct with
  | case1 a b c rest ih =>
    intro x hx
    simp only [wire.encodeTriples, List.mem_cons] at hx
    rcases hx with rfl | rfl | rfl | rfl | hx
    · exact wire.b64Char_mem _
    · exact wire.b64Char_mem _
    · exact wire.b64Char_mem _
    · exact wire.b64Char_mem _
    · exact ih x hx
  | case2 a b =>
    intro x hx
    simp only [wire.encodeTriples, List.mem_cons, List.not_mem_nil, or_false] at hx
    rcases hx with rfl | rfl | rfl
    · exact wire.b64Char_mem _
    · exact wire.b64Char_mem _
    · exact wire.b64Char_mem _
  | case3 a =>
    intro x hx
    simp only [wire.encodeTriples, List.mem_cons, List.not_mem_nil, or_false] at hx
    rcases hx with rfl | rfl
    · exact wire.b64Char_mem _
    · exact wire.b64Char_mem _
  | case4 =>
    intro x hx
    simp [wire.encodeTriples] at hx

theorem wire.encodeTriples_length (l : List Nat) :
    l.length ≤ (wire.encodeTriples l).length := by
  induction l using wire.encodeTriples.induct with
  | case1 a b c rest ih =>
    simp only [wire.encodeTriples, List.length_cons]
    omega
  | case2 a b => simp [wire.encodeTriples]
  | case3 a => simp [wire.encodeTriples]
  | case4 => simp [wire.encodeTriples]

/-- The padded encoding is the unpadded one followed by the padding. -/
theorem base64.encodePadded_eq (l : List Nat) :
    ∃ pad, base64.encodePadded l = wire.encodeTriples l ++ pad := by
  induction l using wire.encodeTriples.induct with
  | case1 a b c rest ih =>
    obtain ⟨pad, hp⟩ := ih
    exact ⟨pad, by simp [base64.encodePadded, wire.encodeTriples, hp]⟩
  | case2 a b => exact ⟨['='], by simp [base64.encodePadded, wire.encodeTriples]⟩
  | case3 a => exact ⟨['=', '='], by simp [base64.encodePadded, wire.encodeTriples]⟩
  | case4 => exact ⟨[], by simp [base64.encodePadded, wire.encodeTriples]⟩

/-- C16. For every length `n ≥ 0` and every successful read of the random source, the
encoding of the `n` bytes has at least `n` characters, so the slice is within bounds and
`GenerateRandomString` returns a value; the string returned has exactly `n` characters,
each of them in the URL-safe alphabet, none of them the padding character `=`. -/
theorem GenerateRandomString_spec (f : Nat → UInt8) (n : Nat) :
    n ≤ (base64.URLEncoding.EncodeToString ((List.range n).map f)).length ∧
    ∃ s, utils.GenerateRandomString (some f) (n : Int) = Result.value s ∧
      s.length = n ∧ ∀ c ∈ s, c ∈ base64.encodeURL ∧ c ≠ '=' := by
  have hlen : (((List.range n).map f).map UInt8.toNat).length = n := by simp
  obtain ⟨pad, hp⟩ := base64.encodePadded_eq (((List.range n).map f).map UInt8.toNat)
  have h1 := wire.encodeTriples_length (((List.range n).map f).map UInt8.toNat)
  rw [hlen] at h1
  have hle : n ≤ (base64.URLEncoding.EncodeToString ((List.range n).map f)).length := by
    unfold base64.URLEncoding.EncodeToString
    rw [hp, List.length_append]
    omega
  refine ⟨hle, (base64.URLEncoding.EncodeToString ((List.range n).map f)).take n, ?_, ?_, ?_⟩
  · unfold utils.GenerateRandomString
    have hneg : ¬ ((n : Int) < 0) := by omega
    simp only [hneg, if_false, Int.toNat_ofNat, hle, if_true]
  · rw [List.length_take]
    omega
  · intro c hc
    unfold base64.URLEncoding.EncodeToString at hc
    rw [hp, List.take_append_of_le_length h1] at hc
    have hmem := wire.encodeTriples_mem _ c (List.mem_of_mem_take hc)
    refine ⟨hmem, ?_⟩
    intro hceq
    rw [hceq] at hmem
    exact absurd hmem (by decide)

/-! ### Strings that hold arbitrary bytes: UTF-8 and the encoder -/

theorem Char.toNat_scalar (c : Char) :
    c.toNat < 55296 ∨ (57343 < c.toNat ∧ c.toNat < 1114112) := by
  have h := c.valid
  simp only [UInt32.isValidChar, Nat.isValidChar] at h
  exact h

theorem utf8.first_two (b : Nat) (h1 : 194 ≤ b) (h2 : b ≤ 223) :
    utf8.first b = some (2, 128, 191) := by
  simp [utf8.first, h1, h2]

theorem utf8.first_three (n : Nat) (h1 : 2048 ≤ n) (h2 : n < 65536)
    (hs : n < 55296 ∨ 57343 < n) :
    ∃ lo hi, utf8.first (224 + n / 4096) = some (3, lo, hi) ∧
      lo ≤ 128 + n / 64 % 64 ∧ 128 + n / 64 % 64 ≤ hi := by
  unfold utf8.first
  split_ifs
  all_goals first
    | omega
    | exact ⟨_, _, rfl, by omega, by omega⟩

theorem utf8.first_four (n : Nat) (h1 : 65536 ≤ n) (h2 : n < 1114112) :
    ∃ lo hi, utf8.first (240 + n / 262144) = some (4, lo, hi) ∧
      lo ≤ 128 + n / 4096 % 64 ∧ 128 + n / 4096 % 64 ≤ hi := by
  unfold utf8.first
  split_ifs
  all_goals first
    | omega
    | exact ⟨_, _, rfl, by omega, by omega⟩

theorem utf8.DecodeRuneInString_utf8Char (c : Char) (rest : List Nat) (h : 128 ≤ c.toNat) :
    utf8.DecodeRuneInString ((wire.utf8Char c ++ rest).take 4)
      = (c.toNat, (wire.utf8Char c).length) := by
  have hv := Char.toNat_scalar c
  unfold wire.utf8Char
  simp only []
  generalize c.toNat = n at *
  split_ifs with h1 h2 h3
  · omega
  · simp only [List.cons_append, List.nil_append, List.take_succ_cons, utf8.DecodeRuneInString]
    rw [if_neg (by omega), utf8.first_two _ (by omega) (by omega)]
    simp only [List.length_cons]
    rw [if_neg (by omega), if_neg (by omega), if_pos (by omega)]
    simp only [List.length_nil, Prod.mk.injEq, and_true]
    omega
  · obtain ⟨lo, hi, hf, hlo, hhi⟩ := utf8.first_three n (by omega) h3 (by omega)
    simp only [List.cons_append, List.nil_append, List.take_succ_cons, utf8.DecodeRuneInString]
    rw [if_neg (by omega), hf]
    simp only [List.length_cons]
    rw [if_neg (by omega), if_neg (by omega), if_neg (by omega), if_neg (by omega),
      if_pos (by omega)]
    simp only [List.length_nil, Prod.mk.injEq, and_true]
    omega
  · obtain ⟨lo, hi, hf, hlo, hhi⟩ := utf8.first_four n (by omega) (by omega)
    simp only [List.cons_append, List.nil_append, List.take_succ_cons, utf8.DecodeRuneInString]
    rw [if_neg (by omega), hf]
    simp only [List.length_cons]
    rw [if_neg (by omega), if_neg (by omega), if_neg (by omega), if_neg (by omega),
      if_neg (by omega), if_neg (by omega)]
    simp only [List.length_nil, Prod.mk.injEq, and_true]
    omega

theorem json.escapeChar_nonascii (c : Char) (h : 128 ≤ c.toNat) :
    json.escapeChar c =
      if c.toNat = 8232 ∨ c.toNat = 8233 then
        ['\\', 'u', '2', '0', '2', json.hexDigit (c.toNat % 16)]
      else [c] := by
  have hq : ∀ d : Char, d.toNat < 128 → c ≠ d := by
    intro d hd hcd
    subst hcd
    omega
  have h8 : ¬ (c.toNat < 32 ∨ c = '<' ∨ c = '>' ∨ c = '&') := by
    rintro (h1 | h1 | h1 | h1)
    · omega
    · exact hq _ (by decide) h1
    · exact hq _ (by decide) h1
    · exact hq _ (by decide) h1
  have h9 : (c = Char.ofNat 8232 ∨ c = Char.ofNat 8233) ↔ (c.toNat = 8232 ∨ c.toNat = 8233) := by
    constructor
    · rintro (h1 | h1)
      · left; subst h1; decide
      · right; subst h1; decide
    · rintro (h1 | h1)
      · left; rw [← Char.ofNat_toNat c, h1]
      · right; rw [← Char.ofNat_toNat c, h1]
  unfold json.escapeChar
  rw [if_neg (hq _ (by decide)), if_neg (hq _ (by decide)), if_neg (hq _ (by decide)),
    if_neg (hq _ (by decide)), if_neg (hq _ (by decide)), if_neg (hq _ (by decide)),
    if_neg (hq _ (by decide)), if_neg h8]
  by_cases h10 : c.toNat = 8232 ∨ c.toNat = 8233
  · rw [if_pos (h9.2 h10), if_pos h10]
  · rw [if_neg (fun x => h10 (h9.1 x)), if_neg h10]

theorem wire.utf8Char_ascii (c : Char) (h : c.toNat < 128) : wire.utf8Char c = [c.toNat] := by
  simp [wire.utf8Char, h]

theorem wire.utf8Char_nonascii (c : Char) (h : 128 ≤ c.toNat) :
    ∃ b bs, wire.utf8Char c = b :: bs ∧ 128 ≤ b ∧ 2 ≤ (b :: bs).length := by
  unfold wire.utf8Char
  simp only []
  split_ifs
  · omega
  · exact ⟨_, _, rfl, by omega, by simp⟩
  · exact ⟨_, _, rfl, by omega, by simp⟩
  · exact ⟨_, _, rfl, by omega, by simp⟩

/-- On the bytes of text the loop of the encoder writes what the encoder of text writes. -/
theorem json.appendStringLoop_text (s : GoString) :
    ∀ n, (s.flatMap wire.utf8Char).length ≤ n →
      json.appendStringLoop n (s.flatMap wire.utf8Char) = s.flatMap json.escapeChar := by
  induction s with
  | nil =>
    intro n _
    cases n <;> rfl
  | cons c t ih =>
    intro n hn
    rw [List.flatMap_cons, List.flatMap_cons]
    rw [List.flatMap_cons, List.length_append] at hn
    by_cases hc : c.toNat < 128
    · rw [wire.utf8Char_ascii c hc] at hn ⊢
      simp only [List.length_singleton] at hn
      obtain ⟨m, rfl⟩ : ∃ m, n = m + 1 := ⟨n - 1, by omega⟩
      rw [List.cons_append, List.nil_append, json.appendStringLoop, if_pos hc,
        Char.ofNat_toNat, ih m (by omega)]
    · have hc1 : 128 ≤ c.toNat := by omega
      obtain ⟨b, bs, hb, hb1, hb2⟩ := wire.utf8Char_nonascii c hc1
      have hd := utf8.DecodeRuneInString_utf8Char c (t.flatMap wire.utf8Char) hc1
      have hdrop : (wire.utf8Char c ++ t.flatMap wire.utf8Char).drop (wire.utf8Char c).length
          = t.flatMap wire.utf8Char := List.drop_left _ _
      rw [hb] at hn hd hdrop ⊢
      simp only [List.length_cons] at hn hb2
      obtain ⟨m, rfl⟩ : ∃ m, n = m + 1 := ⟨n - 1, by omega⟩
      rw [List.cons_append] at hd hdrop ⊢
      rw [json.appendStringLoop, if_neg (by omega), hd]
      simp only []
      rw [if_neg (by simp only [List.length_cons]; omega), hdrop, ih m (by omega),
        json.escapeChar_nonascii c hc1]
      by_cases h10 : c.toNat = 8232 ∨ c.toNat = 8233
      · rw [if_pos h10, if_pos h10]
      · rw [if_neg h10, if_neg h10, Char.ofNat_toNat]
        rfl

theorem wire.utf8Char_lt (c : Char) : ∀ b ∈ wire.utf8Char c, b < 256 := by
  have hv := Char.toNat_scalar c
  unfold wire.utf8Char
  simp only []
  split_ifs <;> simp <;> omega

theorem wire.toNat_toBytes (s : GoString) :
    (wire.toBytes s).map UInt8.toNat = s.flatMap wire.utf8Char := by
  unfold wire.toBytes
  rw [List.map_map]
  conv_rhs => rw [← List.map_id (s.flatMap wire.utf8Char)]
  apply List.map_congr_left
  intro b hb
  obtain ⟨c, _, hc⟩ := List.mem_flatMap.1 hb
  have := wire.utf8Char_lt c b hc
  simp [UInt8.toNat, UInt8.ofNat, Nat.mod_eq_of_lt this]

/-- On the bytes of text the encoder writes the literal that the encoder of text writes. -/
theorem json.appendString_toBytes (s : GoString) :
    json.appendString (wire.toBytes s) = json.quote s := by
  unfold json.appendString json.quote
  rw [wire.toNat_toBytes, json.appendStringLoop_text s _ (by simp [wire.toBytes])]

/-- A rune decoded from bytes that are there has a width of one to four bytes. -/
theorem utf8.DecodeRuneInString_width (b : Nat) (rest : List Nat) :
    1 ≤ (utf8.DecodeRuneInString (b :: rest)).2 ∧ (utf8.DecodeRuneInString (b :: rest)).2 ≤ 4 := by
  generalize h : utf8.DecodeRuneInString (b :: rest) = p
  unfold utf8.DecodeRuneInString at h
  simp only [] at h
  repeat' split at h
  all_goals (subst h; simp)

/-- The loop of the encoder does not depend on its fuel, from the length of the source on:
no source exhausts it. -/
theorem json.appendStringLoop_fuel :
    ∀ (n m : Nat) (s : List Nat), s.length ≤ n → s.length ≤ m →
      json.appendStringLoop n s = json.appendStringLoop m s := by
  intro n
  induction n with
  | zero =>
    intro m s hn _
    have hs : s = [] := List.length_eq_zero.1 (by omega)
    subst hs
    cases m <;> rfl
  | succ n ih =>
    intro m s hn hm
    cases s with
    | nil => cases m <;> rfl
    | cons b rest =>
      obtain ⟨k, rfl⟩ : ∃ k, m = k + 1 := ⟨m - 1, by simp only [List.length_cons] at hm; omega⟩
      simp only [List.length_cons] at hn hm
      have hw := utf8.DecodeRuneInString_width b (rest.take 3)
      have hd : ∀ size, 1 ≤ size → ((b :: rest).drop size).length ≤ rest.length := by
        intro size h1
        simp only [List.length_drop, List.length_cons]
        omega
      rw [json.appendStringLoop, json.appendStringLoop]
      split_ifs with h1
      · rw [ih k rest (by omega) (by omega)]
      · rw [List.take_succ_cons]
        rcases hdec : utf8.DecodeRuneInString (b :: rest.take 3) with ⟨c, size⟩
        rw [hdec] at hw
        simp only [] at hw ⊢
        have h2 := hd size hw.1
        rw [ih k _ (by omega) (by omega)]

/-! ### The primitives of the reference codec round-trip -/

theorem wire.utf8Decode_utf8Char (c : Char) (rest : List Nat) (k : Nat) :
    wire.utf8Decode (k + 1) (wire.utf8Char c ++ rest)
      = (wire.utf8Decode k rest).map (c :: ·) := by
  have hv := Char.toNat_scalar c
  have hc := Char.ofNat_toNat c
  unfold wire.utf8Char
  simp only []
  generalize c.toNat = n at *
  split_ifs with h1 h2 h3
  · rw [List.cons_append, List.nil_append, wire.utf8Decode.eq_def]
    simp only []
    rw [if_pos h1, hc]
  · rw [List.cons_append, List.cons_append, List.nil_append, wire.utf8Decode.eq_def]
    simp only []
    rw [if_neg (by omega), if_pos (by omega)]
    have e : (192 + n / 64 - 192) * 64 + (128 + n % 64) % 64 = n := by omega
    simp only [e, hc]
  · rw [List.cons_append, List.cons_append, List.cons_append, List.nil_append,
      wire.utf8Decode.eq_def]
    simp only []
    rw [if_neg (by omega), if_neg (by omega), if_pos (by omega)]
    have e : ((224 + n / 4096 - 224) * 64 + (128 + n / 64 % 64) % 64) * 64 + (128 + n % 64) % 64
        = n := by omega
    simp only [e, hc]
  · rw [List.cons_append, List.cons_append, List.cons_append, List.cons_append,
      List.nil_append, wire.utf8Decode.eq_def]
    simp only []
    rw [if_neg (by omega), if_neg (by omega), if_neg (by omega), if_pos (by omega)]
    have e : (((240 + n / 262144 - 240) * 64 + (128 + n / 4096 % 64) % 64) * 64
        + (128 + n / 64 % 64) % 64) * 64 + (128 + n % 64) % 64 = n := by omega
    simp only [e, hc]

theorem wire.utf8Decode_text (s : GoString) :
    ∀ k, s.length ≤ k → wire.utf8Decode k (s.flatMap wire.utf8Char) = some s := by
  induction s with
  | nil => intro k _; cases k <;> rfl
  | cons c t ih =>
    intro k hk
    obtain ⟨m, rfl⟩ : ∃ m, k = m + 1 := ⟨k - 1, by simp only [List.length_cons] at hk; omega⟩
    rw [List.flatMap_cons, wire.utf8Decode_utf8Char, ih m (by simp only [List.length_cons] at hk; omega)]
    rfl

theorem wire.utf8Char_ne_nil (c : Char) : 1 ≤ (wire.utf8Char c).length := by
  unfold wire.utf8Char
  simp only []
  split_ifs <;> simp

theorem wire.length_le_flatMap (s : GoString) : s.length ≤ (s.flatMap wire.utf8Char).length := by
  induction s with
  | nil => simp
  | cons c t ih =>
    rw [List.flatMap_cons, List.length_append, List.length_cons]
    have := wire.utf8Char_ne_nil c
    omega

/-- Text is read back from its UTF-8 bytes. -/
theorem wire.ofBytes_toBytes (s : GoString) : wire.ofBytes (wire.toBytes s) = some s := by
  unfold wire.ofBytes
  rw [wire.toNat_toBytes]
  apply wire.utf8Decode_text
  have h := wire.length_le_flatMap s
  simpa [wire.toBytes] using h

theorem wire.b64Val_b64Char (n : Nat) (h : n < 64) : wire.b64Val (wire.b64Char n) = some n := by
  interval_cases n <;> decide

theorem wire.b64Char_keep (n : Nat) (h : n < 64) :
    (wire.b64Char n != '\n' && wire.b64Char n != '\r') = true := by
  interval_cases n <;> decide

theorem List.allSome_cons_some {α : Type} (x : α) (l : List (Option α)) :
    (some x :: l).allSome = (l.allSome).map (x :: ·) := by
  simp only [List.allSome, List.mapM_cons, id]
  cases h : List.mapM id l <;> simp [h]

theorem wire.filter_cons_b64Char (n : Nat) (h : n < 64) (l : GoString) :
    (wire.b64Char n :: l).filter (fun c => c != '\n' && c != '\r')
      = wire.b64Char n :: l.filter (fun c => c != '\n' && c != '\r') :=
  List.filter_cons_of_pos (wire.b64Char_keep n h)

theorem List.allSome_nil {α : Type} : ([] : List (Option α)).allSome = some [] := rfl

/-- The sextets that the characters of an encoding denote decode to the bytes encoded. -/
theorem wire.decode_encodeTriples (l : List Nat) (hl : ∀ b ∈ l, b < 256) :
    ∃ vals, (((wire.encodeTriples l).filter (fun c => c != '\n' && c != '\r')).map
        wire.b64Val).allSome = some vals ∧ wire.decodeQuads vals = some l := by
  induction l using wire.encodeTriples.induct with
  | case1 a b c rest ih =>
    have ha := hl a (by simp)
    have hb := hl b (by simp)
    have hc := hl c (by simp)
    obtain ⟨vals, hv, hd⟩ := ih (fun x hx => hl x (by simp [hx]))
    refine ⟨a / 4 :: (a % 4 * 16 + b / 16) :: (b % 16 * 4 + c / 64) :: (c % 64) :: vals, ?_, ?_⟩
    · simp only [wire.encodeTriples]
      rw [wire.filter_cons_b64Char _ (by omega),
        wire.filter_cons_b64Char _ (by omega),
        wire.filter_cons_b64Char _ (by omega),
        wire.filter_cons_b64Char _ (by omega)]
      simp only [List.map_cons]
      rw [wire.b64Val_b64Char _ (by omega), wire.b64Val_b64Char _ (by omega),
        wire.b64Val_b64Char _ (by omega), wire.b64Val_b64Char _ (by omega)]
      simp only [List.allSome_cons_some, hv, Option.map_some']
    · simp only [wire.decodeQuads, hd]
      have e1 : a / 4 * 4 + (a % 4 * 16 + b / 16) / 16 = a := by omega
      have e2 : (a % 4 * 16 + b / 16) % 16 * 16 + (b % 16 * 4 + c / 64) / 4 = b := by omega
      have e3 : (b % 16 * 4 + c / 64) % 4 * 64 + c % 64 = c := by omega
      rw [e1, e2, e3]
  | case2 a b =>
    have ha := hl a (by simp)
    have hb := hl b (by simp)
    refine ⟨[a / 4, a % 4 * 16 + b / 16, b % 16 * 4], ?_, ?_⟩
    · simp only [wire.encodeTriples]
      rw [wire.filter_cons_b64Char _ (by omega),
        wire.filter_cons_b64Char _ (by omega),
        wire.filter_cons_b64Char _ (by omega)]
      simp only [List.map_cons, List.filter_nil, List.map_nil]
      rw [wire.b64Val_b64Char _ (by omega), wire.b64Val_b64Char _ (by omega),
        wire.b64Val_b64Char _ (by omega)]
      simp only [List.allSome_cons_some, List.allSome_nil, Option.map_some']
    · simp only [wire.decodeQuads]
      have e1 : a / 4 * 4 + (a % 4 * 16 + b / 16) / 16 = a := by omega
      have e2 : (a % 4 * 16 + b / 16) % 16 * 16 + (b % 16 * 4) / 4 = b := by omega
      rw [e1, e2]
  | case3 a =>
    have ha := hl a (by simp)
    refine ⟨[a / 4, a % 4 * 16], ?_, ?_⟩
    · simp only [wire.encodeTriples]
      rw [wire.filter_cons_b64Char _ (by omega),
        wire.filter_cons_b64Char _ (by omega)]
      simp only [List.map_cons, List.filter_nil, List.map_nil]
      rw [wire.b64Val_b64Char _ (by omega), wire.b64Val_b64Char _ (by omega)]
      simp only [List.allSome_cons_some, List.allSome_nil, Option.map_some']
    · simp only [wire.decodeQuads]
      have e1 : a / 4 * 4 + (a % 4 * 16) / 16 = a := by omega
      rw [e1]
  | case4 =>
    exact ⟨[], rfl, rfl⟩

/-- A segment decodes to the bytes that it encodes. -/
theorem wire.DecodeSegment_EncodeSegment (b : jwt.Bytes) :
    wire.DecodeSegment (wire.EncodeSegment b) = some b := by
  obtain ⟨vals, hv, hd⟩ := wire.decode_encodeTriples (b.map UInt8.toNat) (by
    intro x hx
    obtain ⟨y, _, rfl⟩ := List.mem_map.1 hx
    exact y.val.isLt)
  unfold wire.DecodeSegment wire.EncodeSegment
  rw [hv]
  simp only [hd, Option.map_some', List.map_map]
  congr 1
  conv_rhs => rw [← List.map_id b]
  apply List.map_congr_left
  intro x _
  simp [UInt8.ofNat, UInt8.toNat]

theorem Nat.digitChar_isDigit (d : Nat) (h : d < 10) :
    (Nat.digitChar d).isDigit = true ∧ (Nat.digitChar d).toNat - 48 = d := by
  interval_cases d <;> decide

theorem wire.readDigits_digit (c : Char) (t : GoString) (acc : Nat) (h : c.isDigit = true) :
    wire.readDigits (c :: t) acc = wire.readDigits t (acc * 10 + (c.toNat - 48)) := by
  rw [wire.readDigits, if_pos h]

theorem wire.readDigits_stop (t : GoString) (acc : Nat)
    (h : ∀ c r, t = c :: r → c.isDigit = false) : wire.readDigits t acc = (acc, t) := by
  cases t with
  | nil => rfl
  | cons c r =>
    rw [wire.readDigits, if_neg (by rw [h c r rfl]; decide)]

theorem wire.readDigits_toDigitsCore (tail : GoString) :
    ∀ f n ds, n < f →
      wire.readDigits (Nat.toDigitsCore 10 f n ds ++ tail) 0 = wire.readDigits (ds ++ tail) n := by
  intro f
  induction f with
  | zero => intro n ds h; omega
  | succ f ih =>
    intro n ds h
    have hd := Nat.digitChar_isDigit (n % 10) (by omega)
    rw [Nat.toDigitsCore]
    by_cases h0 : n / 10 = 0
    · rw [if_pos h0, List.cons_append, wire.readDigits_digit _ _ _ hd.1, hd.2]
      congr 1
      omega
    · rw [if_neg h0, ih (n / 10) _ (by omega), List.cons_append,
        wire.readDigits_digit _ _ _ hd.1, hd.2]
      congr 1
      omega

theorem wire.toDigitsCore_head (f : Nat) :
    ∀ n ds, n < f → ∃ c t, Nat.toDigitsCore 10 f n ds = c :: t ∧ c.isDigit = true := by
  induction f with
  | zero => intro n ds h; omega
  | succ f ih =>
    intro n ds h
    rw [Nat.toDigitsCore]
    by_cases h0 : n / 10 = 0
    · rw [if_pos h0]
      exact ⟨_, _, rfl, (Nat.digitChar_isDigit (n % 10) (by omega)).1⟩
    · rw [if_neg h0]
      exact ih (n / 10) _ (by omega)

/-- The digits written for a number are read back as the number, up to the first
character that is not a digit. -/
theorem wire.readDigits_toDigits (n : Nat) (tail : GoString)
    (h : ∀ c r, tail = c :: r → c.isDigit = false) :
    wire.readDigits (Nat.toDigits 10 n ++ tail) 0 = (n, tail) := by
  unfold Nat.toDigits
  rw [wire.readDigits_toDigitsCore tail (n + 1) n [] (by omega), List.nil_append,
    wire.readDigits_stop tail n h]

theorem wire.toDigits_head (n : Nat) :
    ∃ c t, Nat.toDigits 10 n = c :: t ∧ c.isDigit = true :=
  wire.toDigitsCore_head (n + 1) n [] (by omega)

/-- An integer written by the encoder is read back, when what follows it is not a
digit. -/
theorem wire.readValue_showInt (n : Int) (tail : GoString)
    (h : ∀ c r, tail = c :: r → c.isDigit = false) :
    wire.readValue (wire.showInt n ++ tail) = some (wire.Value.num n, tail) := by
  obtain ⟨c, t, hct, hc⟩ := wire.toDigits_head n.natAbs
  have hr := wire.readDigits_toDigits n.natAbs tail h
  have hcn : c.toNat ≥ 48 ∧ c.toNat ≤ 57 := by
    simpa [Char.isDigit, UInt32.le_def, Char.toNat, Fin.le_def] using hc
  have hws : ¬ (c = ' ' ∨ c = '\n' ∨ c = '\t' ∨ c = '\r') := by
    rintro (h1 | h1 | h1 | h1) <;> subst h1 <;> revert hc <;> decide
  have hq : c ≠ '"' := by intro h1; subst h1; revert hc; decide
  have hm : c ≠ '-' := by intro h1; subst h1; revert hc; decide
  unfold wire.showInt wire.readValue
  by_cases hneg : n < 0
  · rw [if_pos hneg, List.cons_append, json.skipWS_cons _ _ (by decide)]
    simp only []
    rw [if_neg (by decide), if_pos trivial, hct, List.cons_append]
    simp only []
    rw [if_pos hc, ← List.cons_append, ← hct, hr]
    simp only [Option.some.injEq, Prod.mk.injEq, wire.Value.num.injEq, and_true]
    omega
  · rw [if_neg hneg, hct, List.cons_append, json.skipWS_cons _ _ hws]
    simp only []
    rw [if_neg hq, if_neg hm, if_pos hc, ← List.cons_append, ← hct, hr]
    simp only [Option.some.injEq, Prod.mk.injEq, wire.Value.num.injEq, and_true]
    omega

theorem json.quote_cons (s : GoString) : json.quote s = '"' :: (s.flatMap json.escapeChar ++ ['"']) := rfl

theorem wire.readValue_quote (v tail : GoString) :
    wire.readValue (json.quote v ++ tail) = some (wire.Value.str v, tail) := by
  unfold wire.readValue
  rw [json.quote_cons, List.cons_append, json.skipWS_cons _ _ (by decide)]
  simp only []
  rw [if_pos trivial, List.append_assoc, List.singleton_append, json.readString_flatMap]
  rfl

theorem wire.readFields_num (n : Nat) (k : GoString) (v : Int) (rest : GoString) :
    wire.readFields (n + 1) (json.quote k ++ ':' :: (wire.showInt v ++ ',' :: rest))
      = (wire.readFields n rest).map ((k, wire.Value.num v) :: ·) := by
  rw [wire.readFields, json.readQuoted_quote]
  simp only []
  rw [json.skipWS_cons _ _ (by decide)]
  simp only []
  rw [if_pos trivial, wire.readValue_showInt v _ (by intro c r h; cases h; decide)]
  simp only []
  rw [json.skipWS_cons _ _ (by decide)]
  simp only []
  rw [if_neg (by decide), if_pos trivial]

theorem wire.readFields_str (n : Nat) (k v : GoString) (rest : GoString) :
    wire.readFields (n + 1) (json.quote k ++ ':' :: (json.quote v ++ ',' :: rest))
      = (wire.readFields n rest).map ((k, wire.Value.str v) :: ·) := by
  rw [wire.readFields, json.readQuoted_quote]
  simp only []
  rw [json.skipWS_cons _ _ (by decide)]
  simp only []
  rw [if_pos trivial, wire.readValue_quote]
  simp only []
  rw [json.skipWS_cons _ _ (by decide)]
  simp only []
  rw [if_neg (by decide), if_pos trivial]

theorem wire.readFields_num_last (n : Nat) (k : GoString) (v : Int) :
    wire.readFields (n + 1) (json.quote k ++ ':' :: (wire.showInt v ++ ['}']))
      = some [(k, wire.Value.num v)] := by
  rw [wire.readFields, json.readQuoted_quote]
  simp only []
  rw [json.skipWS_cons _ _ (by decide)]
  simp only []
  rw [if_pos trivial, wire.readValue_showInt v _ (by intro c r h; cases h; decide)]
  simp only []
  rw [json.skipWS_cons _ _ (by decide)]
  simp only []
  rw [if_pos trivial]
  rfl

theorem wire.readRecord_quote (k rest : GoString) :
    wire.readRecord ('{' :: (json.quote k ++ rest))
      = wire.readFields ((json.quote k ++ rest).length + 1) (json.quote k ++ rest) := by
  unfold wire.readRecord
  rw [json.skipWS_cons _ _ (by decide)]
  simp only []
  rw [if_pos trivial, json.quote_cons, List.cons_append, json.skipWS_cons _ _ (by decide)]
  simp only []
  rw [if_neg (by decide), List.length_cons]

/-- The text of an object of six members, written member by member. -/
theorem wire.six_members (k1 v1 k2 v2 k3 v3 k4 v4 k5 v5 k6 v6 : GoString) :
    '{' :: ([','].intercalate
      ([k1 ++ ':' :: v1, k2 ++ ':' :: v2] ++ [k3 ++ ':' :: v3] ++ [] ++ [] ++
        [k4 ++ ':' :: v4] ++ [k5 ++ ':' :: v5] ++ [k6 ++ ':' :: v6] ++ []) ++ ['}'])
    = '{' :: (k1 ++ ':' :: (v1 ++ ',' :: (k2 ++ ':' :: (v2 ++ ',' :: (k3 ++ ':' :: (v3 ++ ',' ::
        (k4 ++ ':' :: (v4 ++ ',' :: (k5 ++ ':' :: (v5 ++ ',' :: (k6 ++ ':' ::
          (v6 ++ ['}'])))))))))))) := by
  simp [List.intercalate, List.intersperse]

theorem wire.marshalClaims_issued (m : AuthMiddleware) (t1 t2 t3 : jwt.Time) (uid : Int)
    (un : GoString) :
    wire.marshalClaims (m.issuedClaims t1 t2 t3 uid un) = wire.toBytes
      ('{' :: (json.quote "user_id".toList ++ ':' :: (wire.showInt uid ++ ',' ::
        (json.quote "username".toList ++ ':' :: (json.quote un ++ ',' ::
        (json.quote "iss".toList ++ ':' :: (json.quote "message_processor".toList ++ ',' ::
        (json.quote "exp".toList ++ ':' ::
          (wire.showInt (jwt.NewNumericDate (t1 + 24 * jwt.Hour) / jwt.Second) ++ ',' ::
        (json.quote "nbf".toList ++ ':' ::
          (wire.showInt (jwt.NewNumericDate t3 / jwt.Second) ++ ',' ::
        (json.quote "iat".toList ++ ':' ::
          (wire.showInt (jwt.NewNumericDate t2 / jwt.Second) ++ ['}']))))))))))))) := by
  unfold wire.marshalClaims AuthMiddleware.issuedClaims
  simp only []
  have h1 : wire.optString "iss" "message_processor".toList
      = [json.quote "iss".toList ++ ':' :: json.quote "message_processor".toList] := by
    unfold wire.optString
    rw [if_neg (by decide)]
  have h2 : ∀ k : String, wire.optString k [] = [] := by
    intro k
    unfold wire.optString
    rw [if_pos rfl]
  have h3 : ∀ (k : String) (t : jwt.Time), wire.optDate k (some t)
      = [json.quote k.toList ++ ':' :: wire.showInt (t / jwt.Second)] := by
    intro k t
    rfl
  rw [h1, h2, h2, h3, h3, h3, if_pos trivial]
  exact congrArg wire.toBytes (wire.six_members _ _ _ _ _ _ _ _ _ _ _ _)

theorem wire.readFields_six (n : Nat) (k1 k2 k3 k4 k5 k6 v2 v3 : GoString) (v1 v4 v5 v6 : Int) :
    wire.readFields (n + 6)
      (json.quote k1 ++ ':' :: (wire.showInt v1 ++ ',' ::
        (json.quote k2 ++ ':' :: (json.quote v2 ++ ',' ::
        (json.quote k3 ++ ':' :: (json.quote v3 ++ ',' ::
        (json.quote k4 ++ ':' :: (wire.showInt v4 ++ ',' ::
        (json.quote k5 ++ ':' :: (wire.showInt v5 ++ ',' ::
        (json.quote k6 ++ ':' :: (wire.showInt v6 ++ ['}']))))))))))))
    = some [(k1, wire.Value.num v1), (k2, wire.Value.str v2), (k3, wire.Value.str v3),
        (k4, wire.Value.num v4), (k5, wire.Value.num v5), (k6, wire.Value.num v6)] := by
  rw [show n + 6 = (n + 5) + 1 from rfl, wire.readFields_num,
    show n + 5 = (n + 4) + 1 from rfl, wire.readFields_str,
    show n + 4 = (n + 3) + 1 from rfl, wire.readFields_str,
    show n + 3 = (n + 2) + 1 from rfl, wire.readFields_num,
    show n + 2 = (n + 1) + 1 from rfl, wire.readFields_num,
    wire.readFields_num_last]
  rfl

theorem wire.readRecord_six (k1 k2 k3 k4 k5 k6 v2 v3 : GoString) (v1 v4 v5 v6 : Int) :
    wire.readRecord ('{' ::
      (json.quote k1 ++ ':' :: (wire.showInt v1 ++ ',' ::
        (json.quote k2 ++ ':' :: (json.quote v2 ++ ',' ::
        (json.quote k3 ++ ':' :: (json.quote v3 ++ ',' ::
        (json.quote k4 ++ ':' :: (wire.showInt v4 ++ ',' ::
        (json.quote k5 ++ ':' :: (wire.showInt v5 ++ ',' ::
        (json.quote k6 ++ ':' :: (wire.showInt v6 ++ ['}'])))))))))))))
    = some [(k1, wire.Value.num v1), (k2, wire.Value.str v2), (k3, wire.Value.str v3),
        (k4, wire.Value.num v4), (k5, wire.Value.num v5), (k6, wire.Value.num v6)] := by
  rw [wire.readRecord_quote]
  have key : ∀ L : Nat, 5 ≤ L → ∃ n, L + 1 = n + 6 := fun L h => ⟨L - 5, by omega⟩
  have hlen : ∃ n, (json.quote k1 ++ ':' :: (wire.showInt v1 ++ ',' ::
        (json.quote k2 ++ ':' :: (json.quote v2 ++ ',' ::
        (json.quote k3 ++ ':' :: (json.quote v3 ++ ',' ::
        (json.quote k4 ++ ':' :: (wire.showInt v4 ++ ',' ::
        (json.quote k5 ++ ':' :: (wire.showInt v5 ++ ',' ::
        (json.quote k6 ++ ':' :: (wire.showInt v6 ++ ['}'])))))))))))).length + 1 = n + 6 := by
    apply key
    simp only [List.length_append, List.length_cons, List.length_nil]
    omega
  obtain ⟨n, hn⟩ := hlen
  rw [hn, wire.readFields_six]

theorem wire.fieldDate_seconds (ms : List (GoString × wire.Value)) (k : String) (t : jwt.Time)
    (h : ms.lookup k.toList = some (wire.Value.num (t / jwt.Second))) :
    wire.fieldDate ms k = some (some (jwt.NewNumericDate t)) := by
  unfold wire.fieldDate
  rw [h]
  simp only []
  have k0 : ∀ n : Nat, (0 : Int) ≤ (n : Int) / ((1000000000 : Nat) : Int) := by
    intro n; omega
  have k1 : ∀ n : Nat, ((n : Int) / ((1000000000 : Nat) : Int)).toNat * 1000000000
      = n / 1000000000 * 1000000000 := by
    intro n; omega
  have h0 : (0 : Int) ≤ (t : Int) / (jwt.Second : Int) := k0 t
  rw [if_pos h0]
  have h1 : ((t : Int) / (jwt.Second : Int)).toNat * jwt.Second = jwt.NewNumericDate t := k1 t
  rw [h1]

theorem jwt.NewNumericDate_idem (t : jwt.Time) :
    jwt.NewNumericDate (jwt.NewNumericDate t) = jwt.NewNumericDate t := by
  have k : ∀ n : Nat, n / 1000000000 * 1000000000 / 1000000000 * 1000000000
      = n / 1000000000 * 1000000000 := by
    intro n; omega
  exact k t

/-- The claims that `GenerateJWT` builds are read back from their JSON. -/
theorem wire.unmarshalClaims_issued (m : AuthMiddleware) (t1 t2 t3 : jwt.Time) (uid : Int)
    (un : GoString) :
    wire.unmarshalClaims (wire.marshalClaims (m.issuedClaims t1 t2 t3 uid un))
      = some (m.issuedClaims t1 t2 t3 uid un) := by
  rw [wire.marshalClaims_issued]
  unfold wire.unmarshalClaims
  rw [wire.ofBytes_toBytes]
  simp only [Option.some_bind]
  rw [wire.readRecord_six]
  simp only []
  have e1 := wire.fieldDate_seconds
    [("user_id".toList, wire.Value.num uid), ("username".toList, wire.Value.str un),
      ("iss".toList, wire.Value.str "message_processor".toList),
      ("exp".toList, wire.Value.num (jwt.NewNumericDate (t1 + 24 * jwt.Hour) / jwt.Second)),
      ("nbf".toList, wire.Value.num (jwt.NewNumericDate t3 / jwt.Second)),
      ("iat".toList, wire.Value.num (jwt.NewNumericDate t2 / jwt.Second))] "exp" _ rfl
  have e2 := wire.fieldDate_seconds
    [("user_id".toList, wire.Value.num uid), ("username".toList, wire.Value.str un),
      ("iss".toList, wire.Value.str "message_processor".toList),
      ("exp".toList, wire.Value.num (jwt.NewNumericDate (t1 + 24 * jwt.Hour) / jwt.Second)),
      ("nbf".toList, wire.Value.num (jwt.NewNumericDate t3 / jwt.Second)),
      ("iat".toList, wire.Value.num (jwt.NewNumericDate t2 / jwt.Second))] "nbf" _ rfl
  have e3 := wire.fieldDate_seconds
    [("user_id".toList, wire.Value.num uid), ("username".toList, wire.Value.str un),
      ("iss".toList, wire.Value.str "message_processor".toList),
      ("exp".toList, wire.Value.num (jwt.NewNumericDate (t1 + 24 * jwt.Hour) / jwt.Second)),
      ("nbf".toList, wire.Value.num (jwt.NewNumericDate t3 / jwt.Second)),
      ("iat".toList, wire.Value.num (jwt.NewNumericDate t2 / jwt.Second))] "iat" _ rfl
  rw [e1, e2, e3, jwt.NewNumericDate_idem, jwt.NewNumericDate_idem, jwt.NewNumericDate_idem]
  rfl

/-! ### The rejection body of a message that may be any byte string -/

/-- On text, the encoder of byte strings writes what the encoder of text writes. -/
theorem raw.Marshal_text (k v : GoString) :
    raw.Marshal [(wire.toBytes k, wire.toBytes v)] = json.Marshal [(k, v)] := by
  simp only [raw.Marshal, raw.marshalMembers, json.Marshal, json.marshalMembers,
    json.appendString_toBytes]

/-- On a message that is text, `UnauthorizedResponse` on its bytes is
`UnauthorizedResponse` on the text. -/
theorem raw.UnauthorizedResponse_text (m : AuthMiddleware) (w : ResponseWriter)
    (message : GoString) :
    raw.UnauthorizedResponse m w (wire.toBytes message) = m.UnauthorizedResponse w message := by
  unfold raw.UnauthorizedResponse AuthMiddleware.UnauthorizedResponse raw.Encode json.Encode
  simp only []
  rw [raw.Marshal_text]

/-- C9, as amended. For every message that is well-formed UTF-8, that is, the bytes of a
text, on a writer that has sent nothing and whose coming write goes through (encoding
succeeds), `UnauthorizedResponse` makes exactly three calls, in this order: it sets
`Content-Type` to `application/json`, writes status 401, and writes one body. The status
sent is 401, the header fields sent with it hold that content type, and the body written
reads as the JSON object with exactly one member, `error`, whose value is the message. -/
theorem UnauthorizedResponse_contract (m : AuthMiddleware) (w : ResponseWriter)
    (message : GoString) (hw : w.wroteHeader = false) (hok : w.nextWriteFails = false) :
    ∃ bytes,
      (raw.UnauthorizedResponse m w (wire.toBytes message)).log = w.log ++
        [Event.setHeader "Content-Type".toList "application/json".toList,
         Event.writeHeader 401, Event.write bytes] ∧
      (raw.UnauthorizedResponse m w (wire.toBytes message)).status = 401 ∧
      (raw.UnauthorizedResponse m w (wire.toBytes message)).sentHeader.Get
        "Content-Type".toList = "application/json".toList ∧
      (raw.UnauthorizedResponse m w (wire.toBytes message)).body = w.body ++ bytes ∧
      json.readObject bytes = some [("error".toList, message)] := by
  rw [raw.UnauthorizedResponse_text]
  exact ⟨json.Marshal [("error".toList, message)] ++ ['\n'],
    (UnauthorizedResponse_success m w message hok).2,
    (UnauthorizedResponse_status m w message hw).2.1,
    (UnauthorizedResponse_status m w message hw).2.2,
    (UnauthorizedResponse_success m w message hok).1,
    json.readObject_Marshal_single _ _⟩

/-- The rejection of a message with a character of two bytes and with characters that
JSON escapes, on a new writer. -/
theorem UnauthorizedResponse_contract_witness :
    ∃ bytes,
      (raw.UnauthorizedResponse Example.middleware (ResponseWriter.fresh [])
          (wire.toBytes "caf\u00e9 <token> \"x\"\n".toList)).log =
        ResponseWriter.log (ResponseWriter.fresh []) ++
        [Event.setHeader "Content-Type".toList "application/json".toList,
         Event.writeHeader 401, Event.write bytes] ∧
      (raw.UnauthorizedResponse Example.middleware (ResponseWriter.fresh [])
          (wire.toBytes "caf\u00e9 <token> \"x\"\n".toList)).status = 401 ∧
      (raw.UnauthorizedResponse Example.middleware (ResponseWriter.fresh [])
          (wire.toBytes "caf\u00e9 <token> \"x\"\n".toList)).sentHeader.Get
          "Content-Type".toList = "application/json".toList ∧
      (raw.UnauthorizedResponse Example.middleware (ResponseWriter.fresh [])
          (wire.toBytes "caf\u00e9 <token> \"x\"\n".toList)).body
        = ResponseWriter.body (ResponseWriter.fresh []) ++ bytes ∧
      json.readObject bytes = some [("error".toList, "caf\u00e9 <token> \"x\"\n".toList)] :=
  UnauthorizedResponse_contract Example.middleware (ResponseWriter.fresh [])
    "caf\u00e9 <token> \"x\"\n".toList rfl rfl

/-- C9, the claim as stated fails: for the message of the one byte `0xFF`, which is not
well-formed UTF-8, the response has status 401 and its body is the object whose member
`error` is the escape `\ufffd`; the value read from it is the character U+FFFD, of bytes
`EF BF BD`, not the message that was given. -/
theorem UnauthorizedResponse_coerces_message :
    (raw.UnauthorizedResponse Example.middleware (ResponseWriter.fresh []) [255]).status
      = 401 ∧
    (raw.UnauthorizedResponse Example.middleware (ResponseWriter.fresh []) [255]).body
      = "\x7b\"error\":\"\\ufffd\"\x7d\n".toList ∧
    (json.readObject
        (raw.UnauthorizedResponse Example.middleware (ResponseWriter.fresh [])
          [255]).body).map (fun ms => ms.map (fun p => (p.1, wire.toBytes p.2)))
      = some [("error".toList, [239, 191, 189])] ∧
    wire.ofBytes [255] = none := by
  decide

/-! ### The round trip of an issued token -/

theorem wire.EncodeSegment_no_dot (b : jwt.Bytes) : '.' ∉ wire.EncodeSegment b := by
  intro h
  have h1 := wire.encodeTriples_mem _ _ h
  revert h1
  decide

theorem wire.unmarshalHeader_hs256 :
    wire.unmarshalHeader (wire.marshalHeader jwt.hs256Header) = some jwt.hs256Header := by
  decide

theorem wire.codecWith_marshalClaims (mac : jwt.Hash → GoString → GoString → jwt.Bytes) :
    (wire.codecWith mac).marshalClaims = wire.marshalClaims := rfl

/-- A codec with the base64 and the JSON of the reference codec round-trips on what the
issuer writes, whatever its HMAC is. -/
theorem wire.RoundTrips_of (J : jwt.Codec) (m : AuthMiddleware) (key : GoString)
    (t1 t2 t3 : jwt.Time) (userID : Int) (username : GoString)
    (hE : J.EncodeSegment = wire.EncodeSegment) (hD : J.DecodeSegment = wire.DecodeSegment)
    (hmH : J.marshalHeader = wire.marshalHeader) (huH : J.unmarshalHeader = wire.unmarshalHeader)
    (hmC : J.marshalClaims = wire.marshalClaims)
    (huC : J.unmarshalClaims = wire.unmarshalClaims) :
    J.RoundTrips key (m.issuedClaims t1 t2 t3 userID username) := by
  unfold jwt.Codec.RoundTrips
  rw [hE, hD, hmH, huH, hmC, huC]
  refine ⟨?_, ?_, ?_, ?_, ?_, ?_⟩
  · rw [wire.DecodeSegment_EncodeSegment, Option.some_bind, wire.unmarshalHeader_hs256]
  · rw [wire.DecodeSegment_EncodeSegment, Option.some_bind, wire.unmarshalClaims_issued]
  · exact wire.DecodeSegment_EncodeSegment _
  · exact wire.EncodeSegment_no_dot _
  · exact wire.EncodeSegment_no_dot _
  · exact wire.EncodeSegment_no_dot _

/-- The reference codec, with any function as its HMAC, round-trips on what the issuer
writes. -/
theorem wire.codecWith_RoundTrips (mac : jwt.Hash → GoString → GoString → jwt.Bytes)
    (m : AuthMiddleware) (key : GoString) (t1 t2 t3 : jwt.Time) (userID : Int)
    (username : GoString) :
    (wire.codecWith mac).RoundTrips key (m.issuedClaims t1 t2 t3 userID username) :=
  wire.RoundTrips_of _ m key t1 t2 t3 userID username rfl rfl rfl rfl rfl rfl

/-- On a user name that is text, the byte-level claims have the JSON of the claims. -/
theorem raw.marshalClaims_text (m : AuthMiddleware) (t1 t2 t3 : jwt.Time) (userID : Int)
    (username : GoString) :
    raw.marshalClaims (raw.issuedClaims m t1 t2 t3 userID (wire.toBytes username))
      = wire.marshalClaims (m.issuedClaims t1 t2 t3 userID username) := by
  unfold raw.marshalClaims wire.marshalClaims raw.issuedClaims AuthMiddleware.issuedClaims
  simp only []
  rw [json.appendString_toBytes]

/-- On a user name that is text, `GenerateJWT` on its bytes is `GenerateJWT` on the text. -/
theorem raw.GenerateJWT_text (mac : jwt.Hash → GoString → GoString → jwt.Bytes)
    (m : AuthMiddleware) (t1 t2 t3 : jwt.Time) (userID : Int) (username : GoString) :
    raw.GenerateJWT m (wire.codecWith mac) t1 t2 t3 userID (wire.toBytes username)
      = m.GenerateJWT (wire.codecWith mac) t1 t2 t3 userID username := by
  unfold raw.GenerateJWT AuthMiddleware.GenerateJWT raw.SignedString jwt.SignedString
  simp only [wire.codecWith_marshalClaims]
  rw [raw.marshalClaims_text]

/-- When the claims that `GenerateJWT` builds are valid. -/
theorem issuedClaims_valid_of (m : AuthMiddleware) (t1 t2 t3 now : jwt.Time) (userID : Int)
    (username : GoString) (h1 : now < jwt.NewNumericDate (t1 + 24 * jwt.Hour))
    (h2 : jwt.NewNumericDate t2 ≤ now) (h3 : jwt.NewNumericDate t3 ≤ now) :
    (m.issuedClaims t1 t2 t3 userID username).Registered.Valid now = [] := by
  simp [AuthMiddleware.issuedClaims, jwt.RegisteredClaims.Valid, h1, h2, h3]

/-- C6, as amended. Round trip. For every user id, every user name that is well-formed
UTF-8 (the bytes of a text), every secret and every HMAC, and whatever instants `t1`, `t2`,
`t3` the clock returns to the three reads of `GenerateJWT` (for `ExpiresAt`, `IssuedAt`,
`NotBefore`): `GenerateJWT` of a middleware built with the secret returns a token; at
every instant `now` that is not before the second of `t2` nor before the second of `t3`,
and is before the second of `t1 + 24h` (so at every instant from the last of the three
reads up to 24 hours less one second after the first), the verifier of any middleware
built with the same secret accepts the token, the claims that it decodes carry exactly
that user id and that user name, and `JWTAuth` runs the protected handler on a request
that presents the token as `Authorization: Bearer <token>`. The base64 and the JSON are
those of the reference codec; the HMAC is any function of the hash, the key and the
message. -/
theorem issue_then_verify (mac : jwt.Hash → GoString → GoString → jwt.Bytes)
    (secret p1 p2 : GoString) (t1 t2 t3 now : jwt.Time) (userID : Int) (username : GoString)
    (inner : ResponseWriter → Request → ResponseWriter) (e : Exchange) (r : Request)
    (h1 : now < jwt.NewNumericDate (t1 + 24 * jwt.Hour))
    (h2 : jwt.NewNumericDate t2 ≤ now) (h3 : jwt.NewNumericDate t3 ≤ now) :
    ∃ tok t,
      raw.GenerateJWT (NewAuthMiddleware secret p1) (wire.codecWith mac) t1 t2 t3 userID
        (wire.toBytes username) = some tok ∧
      jwt.ParseWithClaims (wire.codecWith mac) now tok (NewAuthMiddleware secret p2).keyFunc
        = (some t, none) ∧
      t.Valid = true ∧ t.Claims.UserID = userID ∧ t.Claims.Username = username ∧
      wire.toBytes t.Claims.Username = wire.toBytes username ∧
      (r.Header.Get "Authorization".toList = "Bearer ".toList ++ tok →
        (NewAuthMiddleware secret p2).JWTAuth (wire.codecWith mac) now (observed inner) e r
          = observed inner e r) := by
  obtain ⟨tok, t, k1, k2, k3, k4⟩ :=
    jwt.ParseWithClaims_SignedString (wire.codecWith mac) (NewAuthMiddleware secret p2) now
      ((NewAuthMiddleware secret p1).issuedClaims t1 t2 t3 userID username)
      (wire.codecWith_RoundTrips mac _ _ t1 t2 t3 userID username)
      (issuedClaims_valid_of _ t1 t2 t3 now userID username h1 h2 h3)
  refine ⟨tok, t, ?_, k2, k3, by rw [k4]; rfl, by rw [k4]; rfl, by rw [k4]; rfl,
    fun hreq => ?_⟩
  · rw [raw.GenerateJWT_text]
    exact k1
  · rw [JWTAuth_bearer _ _ now _ e r tok hreq, k2]

/-- The round trip for user 42, `alice`, with three reads of the clock within one second
and the check in the following second: the token is the example token, the verifier
accepts it and decodes 42 and `alice`, and `JWTAuth` runs the protected handler. -/
theorem issue_then_verify_witness :
    raw.GenerateJWT (NewAuthMiddleware "secret".toList "API_".toList)
        (wire.codecWith wire.standInMac) 1700000000000000001 1700000000500000000
        1700000000999999999 42 (wire.toBytes "alice".toList)
      = some (Example.tokenWith "HS256" jwt.Hash.SHA256) ∧
    (∃ t,
      jwt.ParseWithClaims (wire.codecWith wire.standInMac) 1700000001000000000
        (Example.tokenWith "HS256" jwt.Hash.SHA256)
        (NewAuthMiddleware "secret".toList "KEY_".toList).keyFunc = (some t, none) ∧
      t.Valid = true ∧ t.Claims.UserID = 42 ∧ t.Claims.Username = "alice".toList) ∧
    (NewAuthMiddleware "secret".toList "KEY_".toList).JWTAuth
        (wire.codecWith wire.standInMac) 1700000001000000000
        (observed Example.inner) (Example.start [])
        (Example.bearer (Example.tokenWith "HS256" jwt.Hash.SHA256))
      = observed Example.inner (Example.start [])
        (Example.bearer (Example.tokenWith "HS256" jwt.Hash.SHA256)) := by
  obtain ⟨tok, t, k1, k2, k3, k4, k5, _, k7⟩ :=
    issue_then_verify wire.standInMac "secret".toList "API_".toList "KEY_".toList
      1700000000000000001 1700000000500000000 1700000000999999999 1700000001000000000 42
      "alice".toList Example.inner (Example.start [])
      (Example.bearer (Example.tokenWith "HS256" jwt.Hash.SHA256))
      (by decide) (by decide) (by decide)
  have e : raw.GenerateJWT (NewAuthMiddleware "secret".toList "API_".toList)
        (wire.codecWith wire.standInMac) 1700000000000000001 1700000000500000000
        1700000000999999999 42 (wire.toBytes "alice".toList)
      = some (Example.tokenWith "HS256" jwt.Hash.SHA256) := by decide
  have ht : tok = Example.tokenWith "HS256" jwt.Hash.SHA256 :=
    Option.some.inj (k1.symm.trans e)
  subst ht
  exact ⟨e, ⟨t, k2, k3, k4, k5⟩, k7 (by decide)⟩

/-- C6, the claim as stated fails: for the user name of the one byte `0xFF`, which is not
well-formed UTF-8, `GenerateJWT` returns a token that the verifier accepts at the issue
time and on which `JWTAuth` runs the protected handler, but the user name that the
verifier decodes is the character U+FFFD, of bytes `EF BF BD`, not the user name that was
given. -/
theorem GenerateJWT_coerces_user_name :
    (raw.GenerateJWT Example.middleware wire.codec Example.now Example.now Example.now 1
        [255]).map
      (fun tok => (jwt.ParseWithClaims wire.codec Example.now tok Example.middleware.keyFunc).2)
      = some none ∧
    (raw.GenerateJWT Example.middleware wire.codec Example.now Example.now Example.now 1
        [255]).map
      (fun tok =>
        (jwt.ParseWithClaims wire.codec Example.now tok Example.middleware.keyFunc).1.map
          (fun t => (t.Valid, t.Claims.UserID, wire.toBytes t.Claims.Username)))
      = some (some (true, 1, [239, 191, 189])) ∧
    (raw.GenerateJWT Example.middleware wire.codec Example.now Example.now Example.now 1
        [255]).map
      (fun tok =>
        (Example.middleware.JWTAuth wire.codec Example.now (observed Example.inner)
          (Example.start []) (Example.bearer tok)).served)
      = (raw.GenerateJWT Example.middleware wire.codec Example.now Example.now Example.now 1
        [255]).map (fun tok => [Example.bearer tok]) ∧
    wire.ofBytes [255] = none := by
  decide

/-- The condition on the instant of the check is needed. With the three reads at
1.999999998 s, 1.999999999 s and 2.000000000 s, the token is not yet valid at the instant
of the read for `IssuedAt`: the parser reports `NotValidYet` and `JWTAuth` answers 401
without entering the protected handler. From the last read on the parser reports no
error. -/
theorem token_rejected_between_clock_reads :
    (raw.GenerateJWT Example.middleware wire.codec 1999999998 1999999999 2000000000 42
        (wire.toBytes "alice".toList)).map
      (fun tok =>
        ((jwt.ParseWithClaims wire.codec 1999999999 tok Example.middleware.keyFunc).2,
         (Example.middleware.JWTAuth wire.codec 1999999999 (observed Example.inner)
           (Example.start []) (Example.bearer tok)).served,
         (Example.middleware.JWTAuth wire.codec 1999999999 (observed Example.inner)
           (Example.start []) (Example.bearer tok)).w.status,
         (jwt.ParseWithClaims wire.codec 2000000000 tok Example.middleware.keyFunc).2))
      = some (some [jwt.ErrorFlag.NotValidYet], [], 401, none) := by
  decide

end MessageProcessor
